import Mathlib

/-!
Verification development for the linear-cli repository.

The reconciliation engine of `src/commands/import.js` is embedded as a set of
pure Lean functions.  JavaScript objects become structures, optional fields
become `Option`, and JavaScript string truthiness (`undefined`, `null` and
the empty string are falsy) is captured by `strTruthy`.  The asynchronous
remote calls of `src/api.js` are embedded as pure functions over an explicit
`Remote` state; the behaviour of the remote service itself (fresh ids,
team-key issue identifiers, application of update patches) is modelled after
the GraphQL mutations the client issues.  Mutating calls are recorded in an
explicit call trace so that theorems can speak about which remote mutations
a run performs.  File loading, credential lookup and console output are
input/output boundaries and are outside the model: `importCommand` takes the
parsed document directly and log lines are dropped.
-/

namespace LinearCli

/-- JavaScript truthiness of an optional string: `undefined` and `""` are falsy. -/
def strTruthy : Option String → Bool
  | none => false
  | some s => !(s == "")

/-- Embedding of the JavaScript `toLowerCase()` used for case-insensitive
comparisons: lowercase every character.  (Stated on the character list so
that it evaluates inside the kernel; `String.toLower` is the same map but
is irreducible.) -/
def strLower (s : String) : String := ⟨s.data.map Char.toLower⟩

/-- Snapshot record of an existing issue as the import command sees it:
the fields requested by the `getTeamIssues` query, plus created issues
pushed back into the list during the run.  `parent` holds the parent id. -/
structure Issue where
  id : String
  identifier : String
  title : String
  parent : Option String := none
  deriving Repr, DecidableEq

/-- A label as returned by `getTeamLabels` and `createLabel`. -/
structure Label where
  id : String
  name : String
  deriving Repr, DecidableEq

/-- A workflow state of a team as returned by `getWorkflowStates`. -/
structure WorkflowState where
  id : String
  name : String
  deriving Repr, DecidableEq

/-- A team as returned by the teams query: remote id, name and short key. -/
structure Team where
  id : String
  name : String
  key : String
  deriving Repr, DecidableEq

/-- A project as returned by the projects query. -/
structure Project where
  id : String
  name : String
  deriving Repr, DecidableEq

/-- A desired node of the input document (one entry of `issues` or
`subIssues`).  All optional JSON fields are `Option`; `labels` and
`subIssues` distinguish an absent field from an empty array, mirroring the
JavaScript `issue.labels || []` and `issue.subIssues &&` checks. -/
inductive IssueNode where
  | mk (title : String) (identifier : Option String) (description : Option String)
       (status : Option String) (priority : Option Int) (estimate : Option Int)
       (labels : Option (List String)) (subIssues : Option (List IssueNode)) : IssueNode

def IssueNode.title : IssueNode → String
  | .mk t _ _ _ _ _ _ _ => t

def IssueNode.identifier : IssueNode → Option String
  | .mk _ i _ _ _ _ _ _ => i

def IssueNode.description : IssueNode → Option String
  | .mk _ _ d _ _ _ _ _ => d

def IssueNode.status : IssueNode → Option String
  | .mk _ _ _ s _ _ _ _ => s

def IssueNode.priority : IssueNode → Option Int
  | .mk _ _ _ _ p _ _ _ => p

def IssueNode.estimate : IssueNode → Option Int
  | .mk _ _ _ _ _ e _ _ => e

def IssueNode.labels : IssueNode → Option (List String)
  | .mk _ _ _ _ _ _ l _ => l

def IssueNode.subIssues : IssueNode → Option (List IssueNode)
  | .mk _ _ _ _ _ _ _ s => s

/-- Rebuild a node with a different `subIssues` field (used to state that
the engine never reads the nested children of a sub-issue). -/
def IssueNode.withSubIssues : IssueNode → Option (List IssueNode) → IssueNode
  | .mk t i d s p e l _, subs => .mk t i d s p e l subs

/-- A bare node carrying only a title, as in `{title: "..."}`. -/
def node (title : String) : IssueNode :=
  .mk title none none none none none none none

/-- The parsed import document. -/
structure ImportData where
  team : String
  project : Option String := none
  defaultStatus : Option String := none
  issues : List IssueNode

/-- The input object built by `buildIssueInput` and sent to `createIssue`.
A field that the JavaScript object does not carry is `none`. -/
structure IssueInput where
  title : String
  teamId : String
  description : Option String := none
  projectId : Option String := none
  labelIds : Option (List String) := none
  stateId : Option String := none
  parentId : Option String := none
  priority : Option Int := none
  estimate : Option Int := none
  deriving Repr, DecidableEq

/-- The partial patch object sent to `updateIssue`. -/
structure UpdateInput where
  description : Option String := none
  labelIds : Option (List String) := none
  stateId : Option String := none
  parentId : Option String := none
  deriving Repr, DecidableEq

/-- One mutating remote call, as recorded in the call trace of a run. -/
inductive ApiCall where
  | createLabelCall (name : String) (teamId : String) : ApiCall
  | createIssueCall (input : IssueInput) : ApiCall
  | updateIssueCall (issueId : String) (input : UpdateInput) : ApiCall
  deriving Repr, DecidableEq

/-- An issue record held by the remote service: the snapshot fields plus the
owning team. -/
structure RemoteIssue where
  id : String
  identifier : String
  title : String
  teamId : String
  parent : Option String := none
  deriving Repr, DecidableEq

/-- A label record held by the remote service; `team = none` is a
workspace-level label. -/
structure RemoteLabel where
  id : String
  name : String
  team : Option String := none
  deriving Repr, DecidableEq

/-- A workflow state record held by the remote service. -/
structure RemoteState where
  id : String
  name : String
  teamId : String
  deriving Repr, DecidableEq

/-- The state of the remote service.  The counters mint fresh ids for
created issues and labels, modelling that the service, not the client,
assigns ids and issue identifiers. -/
structure Remote where
  teams : List Team
  projects : List Project := []
  labels : List RemoteLabel := []
  states : List RemoteState := []
  issues : List RemoteIssue := []
  nextIssueId : Nat := 1
  nextLabelId : Nat := 1
  deriving Repr, DecidableEq

/-- Project a remote issue record to the snapshot shape the import command
works with (the fields selected by the `getTeamIssues` query). -/
def RemoteIssue.toSnap (i : RemoteIssue) : Issue :=
  { id := i.id, identifier := i.identifier, title := i.title, parent := i.parent }

/-- Embedding of `getTeamByName` (src/api.js): find a team whose name or
short key matches case-insensitively; the caller raises on `none`. -/
def getTeamByName (teamName : String) (r : Remote) : Option Team :=
  r.teams.find? (fun t =>
    strLower t.name == strLower teamName || strLower t.key == strLower teamName)

/-- Embedding of `getProjectByName` (src/api.js): case-insensitive match on
the project name; absence is not an error. -/
def getProjectByName (projectName : String) (r : Remote) : Option Project :=
  r.projects.find? (fun p => strLower p.name == strLower projectName)

/-- Embedding of `getTeamLabels` (src/api.js): labels scoped to the team
together with workspace-level labels. -/
def getTeamLabels (teamId : String) (r : Remote) : List Label :=
  (r.labels.filter (fun l => l.team.isNone || l.team == some teamId)).map
    (fun l => { id := l.id, name := l.name })

/-- Embedding of `getWorkflowStates` (src/api.js): states scoped to the team. -/
def getWorkflowStates (teamId : String) (r : Remote) : List WorkflowState :=
  (r.states.filter (fun s => s.teamId == teamId)).map
    (fun s => { id := s.id, name := s.name })

/-- Embedding of `getTeamIssues` (src/api.js): the query asks for the first
250 issues of the whole workspace and the client then filters them by team. -/
def getTeamIssues (teamId : String) (r : Remote) : List Issue :=
  ((r.issues.take 250).filter (fun i => i.teamId == teamId)).map RemoteIssue.toSnap

/-- Embedding of `createLabel` (src/api.js): the service stores a new label
with a fresh id, scoped to the team, and returns its id and name. -/
def createLabel (name : String) (teamId : String) (r : Remote) : Label × Remote :=
  let lid := "label-" ++ toString r.nextLabelId
  ({ id := lid, name := name },
   { r with labels := r.labels ++ [{ id := lid, name := name, team := some teamId }],
            nextLabelId := r.nextLabelId + 1 })

/-- Embedding of `createIssue` (src/api.js): the service stores a new issue
with a fresh id and a team-key identifier and returns id, identifier, title
and url.  The returned object carries no parent field, hence `parent := none`
on the returned snapshot record. -/
def createIssue (input : IssueInput) (r : Remote) : Issue × Remote :=
  let key := match r.teams.find? (fun t => t.id == input.teamId) with
    | some t => t.key
    | none => "XX"
  let ri : RemoteIssue :=
    { id := "uuid-" ++ toString r.nextIssueId,
      identifier := key ++ "-" ++ toString r.nextIssueId,
      title := input.title, teamId := input.teamId, parent := input.parentId }
  ({ id := ri.id, identifier := ri.identifier, title := ri.title, parent := none },
   { r with issues := r.issues ++ [ri], nextIssueId := r.nextIssueId + 1 })

/-- Embedding of `updateIssue` (src/api.js): the service applies the partial
patch to the stored record and returns id, identifier, title and url.  Of
the patched fields only the parent link is tracked on `RemoteIssue`, because
the program never reads back descriptions, labels or states of issues. -/
def updateIssue (issueId : String) (input : UpdateInput) (r : Remote) :
    Except String (Issue × Remote) :=
  match r.issues.find? (fun i => i.id == issueId) with
  | none => .error ("Failed to update issue \"" ++ issueId ++ "\"")
  | some ri =>
    let newIssues := r.issues.map (fun i =>
      if i.id == issueId then
        { i with parent := match input.parentId with
                           | some p => some p
                           | none => i.parent }
      else i)
    .ok ({ id := ri.id, identifier := ri.identifier, title := ri.title, parent := none },
         { r with issues := newIssues })

/-- Embedding of `validateImportData` (src/utils.js) for sub-issue titles. -/
def validateSubTitles : List IssueNode → Except String Unit
  | [] => .ok ()
  | s :: rest =>
    if s.title == "" then .error "Sub-issue is missing required field: title"
    else validateSubTitles rest

/-- Embedding of `validateImportData` (src/utils.js) for top-level titles
and their sub-issue titles.  Note the source checks only these two levels. -/
def validateTitles : List IssueNode → Except String Unit
  | [] => .ok ()
  | n :: rest =>
    if n.title == "" then .error "Issue is missing required field: title"
    else match validateSubTitles (n.subIssues.getD []) with
      | .error e => .error e
      | .ok _ => validateTitles rest

/-- Embedding of `validateImportData` (src/utils.js).  The checks that
`issues` is present and an array are discharged by typing; index positions
in the error messages are dropped. -/
def validateImportData (data : ImportData) : Except String Unit :=
  if data.team == "" then .error "Missing required field: team"
  else validateTitles data.issues

/-- Embedding of `resolveLabelIds` (src/commands/import.js lines 16-38).
Walks the label names in order; a case-insensitive hit in the session label
cache is reused, a miss creates the label (unless dry-run) and appends it to
the cache.  Returns the collected ids and the updated cache, remote state
and call trace. -/
def resolveLabelIds (labelNames : List String) (teamId : String)
    (cache : List Label) (r : Remote) (calls : List ApiCall) (dryRun : Bool) :
    List String × List Label × Remote × List ApiCall :=
  match labelNames with
  | [] => ([], cache, r, calls)
  | labelName :: rest =>
    match cache.find? (fun l => strLower l.name == strLower labelName) with
    | some label =>
      let (ids, c, r2, t2) := resolveLabelIds rest teamId cache r calls dryRun
      (label.id :: ids, c, r2, t2)
    | none =>
      if dryRun then
        resolveLabelIds rest teamId cache r calls dryRun
      else
        let (label, r1) := createLabel labelName teamId r
        let (ids, c, r2, t2) :=
          resolveLabelIds rest teamId (cache ++ [label]) r1
            (calls ++ [ApiCall.createLabelCall labelName teamId]) dryRun
        (label.id :: ids, c, r2, t2)

/-- Embedding of `resolveStatusId` (src/commands/import.js lines 43-56):
falsy name resolves to null, otherwise case-insensitive exact match, and a
miss raises an error listing every state name of the team. -/
def resolveStatusId (statusName : Option String) (workflowStates : List WorkflowState) :
    Except String (Option String) :=
  match statusName with
  | none => .ok none
  | some s =>
    if s == "" then .ok none
    else
      match workflowStates.find? (fun st => strLower st.name == strLower s) with
      | some st => .ok (some st.id)
      | none =>
        .error ("Status \"" ++ s ++ "\" not found. Available: " ++
          String.intercalate ", " (workflowStates.map (fun st => st.name)))

/-- The status ternary used for each node (src/commands/import.js lines
192-194 and 264-266): the node status if truthy, else the default state id. -/
def nodeStateId (n : IssueNode) (workflowStates : List WorkflowState)
    (defaultStateId : Option String) : Except String (Option String) :=
  if strTruthy n.status then resolveStatusId n.status workflowStates
  else .ok defaultStateId

/-- Embedding of `buildIssueInput` (src/commands/import.js lines 61-96):
every field guarded by the same condition as in the source. -/
def buildIssueInput (issue : IssueNode) (teamId : String) (projectId : Option String)
    (labelIds : List String) (stateId : Option String) (parentId : Option String) :
    IssueInput :=
  { title := issue.title
    teamId := teamId
    description := if strTruthy issue.description then issue.description else none
    projectId := if strTruthy projectId then projectId else none
    labelIds := if labelIds.length > 0 then some labelIds else none
    stateId := if strTruthy stateId then stateId else none
    parentId := if strTruthy parentId then parentId else none
    priority := issue.priority
    estimate := issue.estimate }

/-- Embedding of the `findExistingIssue` helper (src/commands/import.js
lines 159-172), taking the snapshot list explicitly instead of by closure:
identifier match first (parent-blind), else title match under the same
effective parent. -/
def findExistingIssue (existingIssues : List Issue) (issue : IssueNode)
    (parentId : Option String) : Option Issue :=
  if strTruthy issue.identifier then
    existingIssues.find? (fun i =>
      strLower i.identifier == strLower (issue.identifier.getD ""))
  else
    existingIssues.find? (fun i =>
      strLower i.title == strLower issue.title &&
      (if strTruthy parentId then i.parent == parentId else i.parent == none))

/-- The per-run constants of `importCommand`: resolved team and project,
workflow states, default state id and the two mode flags. -/
structure Ctx where
  teamId : String
  projectId : Option String
  workflowStates : List WorkflowState
  defaultStateId : Option String
  dryRun : Bool
  update : Bool
  deriving Repr, DecidableEq

/-- The mutable state of one run: remote service state, the local issue
snapshot (`existingIssues`), the session label cache (`existingLabels`),
the three aggregates and the trace of mutating remote calls. -/
structure RunState where
  remote : Remote
  snapshot : List Issue
  cache : List Label
  created : List Issue := []
  updated : List Issue := []
  skipped : List Issue := []
  calls : List ApiCall := []
  deriving Repr, DecidableEq

/-- The partial patch built for an existing sub-issue (src/commands/import.js
lines 275-288): description, label ids and state id under the same truthy
guards as the source, plus `parentId` exactly when the parent binding id is
truthy and differs from the current parent of the matched issue. -/
def subUpdateInput (sub : IssueNode) (subLabelIds : List String)
    (subStateId : Option String) (parentIssue ex : Issue) : UpdateInput :=
  { description := if strTruthy sub.description then sub.description else none
    labelIds := if subLabelIds.length > 0 then some subLabelIds else none
    stateId := if strTruthy subStateId then subStateId else none
    parentId :=
      if !(parentIssue.id == "") && !(ex.parent == some parentIssue.id) then
        some parentIssue.id
      else none }

/-- The partial patch built for an existing top-level issue
(src/commands/import.js lines 204-213): description, label ids and state id
under the same truthy guards as the source; the source never adds a
`parentId` here. -/
def topUpdateInput (issue : IssueNode) (parentLabelIds : List String)
    (parentStateId : Option String) : UpdateInput :=
  { description := if strTruthy issue.description then issue.description else none
    labelIds := if parentLabelIds.length > 0 then some parentLabelIds else none
    stateId := if strTruthy parentStateId then parentStateId else none
    parentId := none }

/-- Embedding of the body of the sub-issue loop (src/commands/import.js
lines 249-331): match under the resolved parent, resolve labels and status,
then skip, update or create. -/
def processSubIssue (ctx : Ctx) (parentIssue : Issue) (st : RunState)
    (sub : IssueNode) : Except String RunState :=
  let existingSub := findExistingIssue st.snapshot sub (some parentIssue.id)
  let (subLabelIds, cache1, r1, t1) :=
    resolveLabelIds (sub.labels.getD []) ctx.teamId st.cache st.remote st.calls ctx.dryRun
  match nodeStateId sub ctx.workflowStates ctx.defaultStateId with
  | .error e => .error e
  | .ok subStateId =>
    let st1 : RunState := { st with cache := cache1, remote := r1, calls := t1 }
    match existingSub with
    | some ex =>
      if ctx.update then
        if ctx.dryRun then
          .ok { st1 with updated := st1.updated ++ [ex] }
        else
          match updateIssue ex.id (subUpdateInput sub subLabelIds subStateId parentIssue ex)
              r1 with
          | .error e => .error e
          | .ok (_upd, r2) =>
            .ok { st1 with remote := r2,
                           calls := t1 ++ [ApiCall.updateIssueCall ex.id
                             (subUpdateInput sub subLabelIds subStateId parentIssue ex)],
                           updated := st1.updated ++ [ex] }
      else
        .ok { st1 with skipped := st1.skipped ++ [ex] }
    | none =>
      let subInput := buildIssueInput sub ctx.teamId ctx.projectId subLabelIds subStateId
        (if ctx.dryRun then none else some parentIssue.id)
      if ctx.dryRun then
        .ok { st1 with created := st1.created ++
          [{ id := "dry-run-id", identifier := "DRY-X", title := sub.title, parent := none }] }
      else
        let (ci, r2) := createIssue subInput r1
        .ok { st1 with remote := r2,
                       calls := t1 ++ [ApiCall.createIssueCall subInput],
                       created := st1.created ++ [ci],
                       snapshot := st1.snapshot ++ [{ ci with parent := some parentIssue.id }] }

/-- The sub-issue loop itself: left-to-right over `subIssues`. -/
def processSubIssues (ctx : Ctx) (parentIssue : Issue) (st : RunState) :
    List IssueNode → Except String RunState
  | [] => .ok st
  | sub :: rest =>
    match processSubIssue ctx parentIssue st sub with
    | .error e => .error e
    | .ok st1 => processSubIssues ctx parentIssue st1 rest

/-- Embedding of the body of the top-level issue loop (src/commands/import.js
lines 177-333): match at root level, resolve labels and status, skip, update
or create the node, then run the sub-issue loop with the resolved issue as
the effective parent. -/
def processTopIssue (ctx : Ctx) (st : RunState) (issue : IssueNode) :
    Except String RunState :=
  let existingParent := findExistingIssue st.snapshot issue none
  let (parentLabelIds, cache1, r1, t1) :=
    resolveLabelIds (issue.labels.getD []) ctx.teamId st.cache st.remote st.calls ctx.dryRun
  match nodeStateId issue ctx.workflowStates ctx.defaultStateId with
  | .error e => .error e
  | .ok parentStateId =>
    let st1 : RunState := { st with cache := cache1, remote := r1, calls := t1 }
    match existingParent with
    | some ex =>
      if ctx.update then
        if ctx.dryRun then
          let st2 := { st1 with updated := st1.updated ++ [ex] }
          processSubIssues ctx ex st2 (issue.subIssues.getD [])
        else
          match updateIssue ex.id (topUpdateInput issue parentLabelIds parentStateId) r1 with
          | .error e => .error e
          | .ok (upd, r2) =>
            let st2 := { st1 with remote := r2,
                                  calls := t1 ++ [ApiCall.updateIssueCall ex.id
                                    (topUpdateInput issue parentLabelIds parentStateId)],
                                  updated := st1.updated ++ [upd] }
            processSubIssues ctx upd st2 (issue.subIssues.getD [])
      else
        let st2 := { st1 with skipped := st1.skipped ++ [ex] }
        processSubIssues ctx ex st2 (issue.subIssues.getD [])
    | none =>
      let parentInput := buildIssueInput issue ctx.teamId ctx.projectId parentLabelIds
        parentStateId none
      if ctx.dryRun then
        let ph : Issue := { id := "dry-run-id", identifier := "DRY-1",
                            title := issue.title, parent := none }
        let st2 := { st1 with created := st1.created ++ [ph] }
        processSubIssues ctx ph st2 (issue.subIssues.getD [])
      else
        let (ci, r2) := createIssue parentInput r1
        let st2 := { st1 with remote := r2,
                              calls := t1 ++ [ApiCall.createIssueCall parentInput],
                              created := st1.created ++ [ci],
                              snapshot := st1.snapshot ++ [ci] }
        processSubIssues ctx ci st2 (issue.subIssues.getD [])

/-- The top-level issue loop: left-to-right over `data.issues`. -/
def processIssues (ctx : Ctx) (st : RunState) : List IssueNode → Except String RunState
  | [] => .ok st
  | issue :: rest =>
    match processTopIssue ctx st issue with
    | .error e => .error e
    | .ok st1 => processIssues ctx st1 rest

/-- The CLI options consumed by `importCommand`. -/
structure Options where
  dryRun : Bool := false
  update : Bool := false
  deriving Repr, DecidableEq

/-- Embedding of `importCommand` (src/commands/import.js lines 101-373):
validate the document, resolve team and optional project, fetch labels,
workflow states and the issue snapshot, resolve the default status, then run
the issue loop.  The final `RunState` carries the aggregates the summary
reports. -/
def importCommand (data : ImportData) (opts : Options) (r : Remote) :
    Except String RunState :=
  match validateImportData data with
  | .error e => .error e
  | .ok _ =>
    match getTeamByName data.team r with
    | none => .error ("Team \"" ++ data.team ++ "\" not found")
    | some team =>
      let project := if strTruthy data.project then
          getProjectByName (data.project.getD "") r
        else none
      let existingLabels := getTeamLabels team.id r
      let workflowStates := getWorkflowStates team.id r
      let existingIssues := getTeamIssues team.id r
      match (if strTruthy data.defaultStatus then
          resolveStatusId data.defaultStatus workflowStates
        else .ok none) with
      | .error e => .error e
      | .ok defaultStateId =>
        let ctx : Ctx :=
          { teamId := team.id, projectId := project.map Project.id,
            workflowStates := workflowStates, defaultStateId := defaultStateId,
            dryRun := opts.dryRun, update := opts.update }
        processIssues ctx
          { remote := r, snapshot := existingIssues, cache := existingLabels }
          data.issues

/-- Number of nodes the engine visits for one top-level node: the node and
its direct sub-issues (deeper nesting is not walked by the source). -/
def countVisitedNode (n : IssueNode) : Nat :=
  1 + (n.subIssues.getD []).length

/-- Number of nodes the engine visits for a list of top-level nodes. -/
def countVisited (ns : List IssueNode) : Nat :=
  (ns.map countVisitedNode).sum

/-- Projection of an `Except` to its error component. -/
def errOf {ε α : Type} : Except ε α → Option ε
  | .error e => some e
  | .ok _ => none

/-- Number of `createLabel` calls in a trace whose label name has the given
lower-case form. -/
def countLabelCalls (calls : List ApiCall) (w : String) : Nat :=
  (calls.filter (fun c => match c with
    | .createLabelCall n _ => strLower n == w
    | _ => false)).length

/-- Number of `createIssue` calls in a trace. -/
def countCreateIssueCalls (calls : List ApiCall) : Nat :=
  (calls.filter (fun c => match c with
    | .createIssueCall _ => true
    | _ => false)).length

/-- True for `createLabel` trace entries. -/
def isLabelCall : ApiCall → Bool
  | .createLabelCall _ _ => true
  | _ => false

/-- Id of the first case-insensitive hit for a label name in a cache
(empty string if there is none). -/
def firstLabelId (cache : List Label) (nm : String) : String :=
  ((cache.find? (fun l => strLower l.name == strLower nm)).map Label.id).getD ""

/-- Rebuild a node with a different title (used to state that identifier
matching ignores the title). -/
def IssueNode.withTitle : IssueNode → String → IssueNode
  | .mk _ i d s p e l subs, t => .mk t i d s p e l subs

/-- The label names referenced by the nodes a run visits: the labels of each
top-level node and of its direct sub-issues. -/
def referencedLabelNames (ns : List IssueNode) : List String :=
  ns.flatMap (fun n => n.labels.getD [] ++
    (n.subIssues.getD []).flatMap (fun s => s.labels.getD []))

/-- The nodes a run visits: the top-level nodes and their direct sub-issues. -/
def visitedNodes (ns : List IssueNode) : List IssueNode :=
  ns.flatMap (fun n => n :: n.subIssues.getD [])

/-! ### Concrete fixtures used by scenario theorems and counterexamples -/

/-- A team used by the concrete scenarios. -/
def baseTeam : Team := { id := "t1", name := "Test", key := "T" }

/-- A remote with one team and nothing else. -/
def baseRemote : Remote := { teams := [baseTeam] }

/-- Default options: a real, non-update run. -/
def ffOpts : Options := {}

/-- Scenario A document: an epic with one sub-issue. -/
def docA : ImportData :=
  { team := "T",
    issues := [IssueNode.mk "Epic" none none none none none none (some [node "Sub"])] }

/-- A document whose only node carries an identifier that matches nothing. -/
def docId : ImportData :=
  { team := "T", issues := [IssueNode.mk "A" (some "TC-999") none none none none none none] }

/-- A document with two identically titled root nodes. -/
def doc2A : ImportData := { team := "T", issues := [node "A", node "A"] }

/-- A document with a node nested at depth three. -/
def docDeep : ImportData :=
  { team := "T",
    issues := [IssueNode.mk "A" none none none none none none
      (some [IssueNode.mk "B" none none none none none none (some [node "C"])])] }

/-- Remote for the root-reparent counterexample: an issue `s1` that
currently sits under parent `p1`. -/
def remote3 : Remote :=
  { teams := [baseTeam],
    issues := [ { id := "p1", identifier := "T-1", title := "P", teamId := "t1" },
                { id := "s1", identifier := "T-2", title := "S", teamId := "t1",
                  parent := some "p1" } ] }

/-- A document declaring `s1` (by identifier) as a root node. -/
def doc3 : ImportData :=
  { team := "T", issues := [IssueNode.mk "S" (some "T-2") none none none none none none] }

/-- Remote for the snapshot-staleness counterexample: `s1` sits under `p1`
and the document moves it under `p2`. -/
def remote4 : Remote :=
  { teams := [baseTeam],
    issues := [ { id := "p1", identifier := "T-1", title := "P1", teamId := "t1" },
                { id := "p2", identifier := "T-2", title := "P2", teamId := "t1" },
                { id := "s1", identifier := "T-3", title := "S", teamId := "t1",
                  parent := some "p1" } ] }

/-- A document that reparents `s1` under `P2` via its identifier. -/
def doc4 : ImportData :=
  { team := "T",
    issues := [IssueNode.mk "P2" none none none none none none
      (some [IssueNode.mk "S" (some "T-3") none none none none none none])] }

/-- Scenario B document: two sibling issues both carrying label `bug`. -/
def docB : ImportData :=
  { team := "T",
    issues := [IssueNode.mk "A" none none none none none (some ["bug"]) none,
               IssueNode.mk "B" none none none none none (some ["bug"]) none] }

/-- Remote for scenario C: three workflow states, none called `Done`. -/
def remoteC : Remote :=
  { teams := [baseTeam],
    states := [ { id := "st1", name := "Backlog", teamId := "t1" },
                { id := "st2", name := "Todo", teamId := "t1" },
                { id := "st3", name := "In Progress", teamId := "t1" } ] }

/-- Scenario C document: one node referencing status `Done`. -/
def docC : ImportData :=
  { team := "T", issues := [IssueNode.mk "X" none none (some "Done") none none none none] }

/-- Remote for the snapshot-cap counterexample: 250 issues of another team
in front of one issue of team `t1`. -/
def remote8 : Remote :=
  { teams := [baseTeam],
    issues := List.replicate 250
        { id := "x", identifier := "O-1", title := "o", teamId := "other" } ++
      [ { id := "m1", identifier := "T-9", title := "mine", teamId := "t1" } ] }

/-- A run context with the update flag on (used by witnesses). -/
def ctxUpd : Ctx :=
  { teamId := "t1", projectId := none, workflowStates := [], defaultStateId := none,
    dryRun := false, update := true }

/-- A run context with both flags off (used by witnesses). -/
def ctxReal : Ctx :=
  { teamId := "t1", projectId := none, workflowStates := [], defaultStateId := none,
    dryRun := false, update := false }

/-- The snapshot record of issue `s1` sitting under parent `p1`. -/
def exS : Issue := { id := "s1", identifier := "T-3", title := "S", parent := some "p1" }

/-- The parent binding `p2` used by the reparenting witness. -/
def newParent : Issue := { id := "p2", identifier := "T-2", title := "P2", parent := none }

/-- The desired node that addresses `s1` by identifier. -/
def subS : IssueNode := IssueNode.mk "S" (some "T-3") none none none none none none

/-- A run state over `remote4` whose snapshot holds only `s1`. -/
def stW : RunState := { remote := remote4, snapshot := [exS], cache := [] }

/-- One list extends another by a (possibly empty) suffix. -/
def Extends {α : Type} (l₁ l₂ : List α) : Prop := ∃ t, l₂ = l₁ ++ t

/-- Number of labels in a list whose lower-cased name is `w`. -/
def countNames (Δ : List Label) (w : String) : Nat :=
  (Δ.filter (fun l => strLower l.name == w)).length

/-- How the session label cache and the call trace grow across a run
segment: the cache gains exactly the labels `Δ`, the trace gains exactly one
`createLabel` call per element of `Δ`, every new label was absent from the
starting cache, and the new labels have pairwise distinct lower-case names. -/
def CacheGrowth (c c2 : List Label) (t t2 : List ApiCall) (Δ : List Label) : Prop :=
  c2 = c ++ Δ ∧
  (∀ w, countLabelCalls t2 w = countLabelCalls t w + countNames Δ w) ∧
  (∀ l ∈ Δ, ∀ l2 ∈ c, ¬ strLower l2.name = strLower l.name) ∧
  Δ.Pairwise (fun l l2 => ¬ strLower l.name = strLower l2.name)

/-- Relation between the local run state and the remote service maintained
by a real run: snapshot and cache mirror the remote team data, remote
growth equals the number of created issues, the fixed remote tables never
change, and remote issue ids stay nonempty. -/
def SnapInv (tid : String) (r0 : Remote) (st : RunState) : Prop :=
  st.snapshot = (st.remote.issues.filter (fun i => i.teamId == tid)).map RemoteIssue.toSnap ∧
  st.cache = getTeamLabels tid st.remote ∧
  st.remote.teams = r0.teams ∧
  st.remote.projects = r0.projects ∧
  st.remote.states = r0.states ∧
  st.remote.issues.length = r0.issues.length + st.created.length ∧
  (∀ i ∈ st.remote.issues, ¬ i.id = "")

/-! ### Helper lemmas about list search -/

theorem find?_split {α : Type} (p : α → Bool) :
    ∀ (l : List α) (a : α), l.find? p = some a →
      ∃ l₁ l₂, l = l₁ ++ a :: l₂ ∧ p a = true ∧ ∀ x ∈ l₁, p x = false := by
  intro l
  induction l with
  | nil => intro a h; simp [List.find?] at h
  | cons x xs ih =>
    intro a h
    by_cases hx : p x
    · rw [List.find?_cons_of_pos _ hx] at h
      cases h
      exact ⟨[], xs, by simp, hx, by simp⟩
    · rw [List.find?_cons_of_neg _ hx] at h
      obtain ⟨l₁, l₂, hl, hpa, hall⟩ := ih a h
      exact ⟨x :: l₁, l₂, by simp [hl], hpa, by
        intro y hy
        rcases List.mem_cons.mp hy with rfl | hy
        · exact Bool.eq_false_iff.mpr hx
        · exact hall y hy⟩

theorem find?_append_left {α : Type} (p : α → Bool) (l₁ l₂ : List α) (a : α)
    (h : l₁.find? p = some a) : (l₁ ++ l₂).find? p = some a := by
  rw [List.find?_append, h]; rfl

theorem find?_append_none {α : Type} (p : α → Bool) (l₁ l₂ : List α)
    (h : l₁.find? p = none) : (l₁ ++ l₂).find? p = l₂.find? p := by
  rw [List.find?_append, h]; rfl

theorem find?_extends {α : Type} (p : α → Bool) (l₁ l₂ : List α) (a : α)
    (hext : Extends l₁ l₂) (h : l₁.find? p = some a) : l₂.find? p = some a := by
  obtain ⟨t, rfl⟩ := hext
  exact find?_append_left p l₁ t a h

theorem extends_trans {α : Type} {l₁ l₂ l₃ : List α}
    (h₁ : Extends l₁ l₂) (h₂ : Extends l₂ l₃) : Extends l₁ l₃ := by
  obtain ⟨t, rfl⟩ := h₁
  obtain ⟨u, rfl⟩ := h₂
  exact ⟨t ++ u, by simp⟩

theorem extends_refl {α : Type} (l : List α) : Extends l l := ⟨[], by simp⟩

theorem extends_append {α : Type} (l t : List α) : Extends l (l ++ t) := ⟨t, rfl⟩

theorem mem_of_extends {α : Type} {l₁ l₂ : List α} {a : α}
    (hext : Extends l₁ l₂) (h : a ∈ l₁) : a ∈ l₂ := by
  obtain ⟨t, rfl⟩ := hext
  exact List.mem_append_left t h

/-- The label resolver only ever appends `createLabel` entries to the call
trace. -/
theorem resolveLabelIds_calls_label_only :
    ∀ (names : List String) (tid : String) (c : List Label) (r : Remote)
      (t : List ApiCall) (dr : Bool),
      ∃ Δ, (resolveLabelIds names tid c r t dr).2.2.2 = t ++ Δ ∧
        ∀ a ∈ Δ, ∃ nm tid2, a = ApiCall.createLabelCall nm tid2 := by
  intro names
  induction names with
  | nil =>
    intro tid c r t dr
    exact ⟨[], by simp [resolveLabelIds], by simp⟩
  | cons nm rest ih =>
    intro tid c r t dr
    unfold resolveLabelIds
    cases hf : c.find? (fun l => strLower l.name == strLower nm) with
    | some label =>
      obtain ⟨Δ, hΔ, hall⟩ := ih tid c r t dr
      rcases hrl : resolveLabelIds rest tid c r t dr with ⟨ids, c2, r2, t2⟩
      rw [hrl] at hΔ
      have hΔ2 : t2 = t ++ Δ := by simpa using hΔ
      exact ⟨Δ, by simpa using hΔ2, hall⟩
    | none =>
      by_cases hdr : dr = true
      · subst hdr
        simpa using ih tid c r t true
      · rw [Bool.not_eq_true] at hdr
        subst hdr
        simp only [Bool.false_eq_true, if_false]
        rcases hcl : createLabel nm tid r with ⟨label, r1⟩
        obtain ⟨Δ, hΔ, hall⟩ := ih tid (c ++ [label]) r1
          (t ++ [ApiCall.createLabelCall nm tid]) false
        rcases hrl : resolveLabelIds rest tid (c ++ [label]) r1
            (t ++ [ApiCall.createLabelCall nm tid]) false with ⟨ids, c2, r2, t2⟩
        rw [hrl] at hΔ
        have hΔ2 : t2 = t ++ ApiCall.createLabelCall nm tid :: Δ := by
          simpa [List.append_assoc] using hΔ
        refine ⟨ApiCall.createLabelCall nm tid :: Δ, by simpa using hΔ2, ?_⟩
        intro a ha
        rcases List.mem_cons.mp ha with rfl | ha
        · exact ⟨nm, tid, rfl⟩
        · exact hall a ha

/-- In dry-run mode the label resolver never changes cache, remote state or
call trace. -/
theorem resolveLabelIds_dry :
    ∀ (names : List String) (tid : String) (c : List Label) (r : Remote)
      (t : List ApiCall),
      ∃ ids, resolveLabelIds names tid c r t true = (ids, c, r, t) := by
  intro names
  induction names with
  | nil => intro tid c r t; exact ⟨[], rfl⟩
  | cons nm rest ih =>
    intro tid c r t
    unfold resolveLabelIds
    cases hf : c.find? (fun l => strLower l.name == strLower nm) with
    | some label =>
      obtain ⟨ids, hids⟩ := ih tid c r t
      exact ⟨label.id :: ids, by rw [hids]⟩
    | none =>
      simpa using ih tid c r t

/-- Full specification of a real (non-dry) run of the label resolver: the
cache and the remote label table grow by the same freshly created labels
(one `createLabel` call each, in order), every other remote component is
untouched, every referenced name has a hit in the final cache, the returned
ids are the first case-insensitive hits in the final cache, and the created
labels are pairwise distinct names that were absent from the initial cache. -/
theorem resolveLabelIds_real :
    ∀ (names : List String) (tid : String) (c : List Label) (r : Remote)
      (t : List ApiCall) (ids : List String) (c2 : List Label) (r2 : Remote)
      (t2 : List ApiCall),
      resolveLabelIds names tid c r t false = (ids, c2, r2, t2) →
      ∃ Δ, c2 = c ++ Δ ∧
        t2 = t ++ Δ.map (fun l => ApiCall.createLabelCall l.name tid) ∧
        ids = names.map (firstLabelId c2) ∧
        r2.labels = r.labels ++ Δ.map
          (fun l => ({ id := l.id, name := l.name, team := some tid } : RemoteLabel)) ∧
        r2.issues = r.issues ∧ r2.teams = r.teams ∧ r2.projects = r.projects ∧
        r2.states = r.states ∧ r2.nextIssueId = r.nextIssueId ∧
        (∀ nm ∈ names, ∃ l ∈ c2, (strLower l.name == strLower nm) = true) ∧
        (∀ l ∈ Δ, ∀ l2 ∈ c, ¬ strLower l2.name = strLower l.name) ∧
        Δ.Pairwise (fun l l2 => ¬ strLower l.name = strLower l2.name) ∧
        (∀ l ∈ Δ, l.name ∈ names) := by
  intro names
  induction names with
  | nil =>
    intro tid c r t ids c2 r2 t2 h
    rw [resolveLabelIds] at h
    cases h
    exact ⟨[], by simp, by simp, by simp, by simp, rfl, rfl, rfl, rfl, rfl,
      by simp, by simp, by simp, by simp⟩
  | cons nm rest ih =>
    intro tid c r t ids c2 r2 t2 h
    rw [resolveLabelIds] at h
    cases hf : c.find? (fun l => strLower l.name == strLower nm) with
    | some label =>
      rw [hf] at h
      rcases hrl : resolveLabelIds rest tid c r t false with ⟨ids1, cx, rx, tx⟩
      rw [hrl] at h
      cases h
      obtain ⟨Δ, hc, ht, hids, hlab, hiss, htm, hpr, hst, hnx, hfound, habs, hpw, hmm⟩ :=
        ih tid c r t ids1 c2 r2 t2 hrl
      have hhead : firstLabelId c2 nm = label.id := by
        unfold firstLabelId
        rw [hc, find?_append_left _ c Δ label hf]
        rfl
      refine ⟨Δ, hc, ht, ?_, hlab, hiss, htm, hpr, hst, hnx, ?_, habs, hpw,
        fun l hl => List.mem_cons_of_mem nm (hmm l hl)⟩
      · simp [List.map_cons, hhead, hids]
      · intro nm2 hnm2
        rcases List.mem_cons.mp hnm2 with rfl | hnm2
        · refine ⟨label, ?_, by simpa using List.find?_some hf⟩
          rw [hc]
          exact List.mem_append_left Δ (List.mem_of_find?_eq_some hf)
        · exact hfound nm2 hnm2
    | none =>
      rw [hf] at h
      simp only [Bool.false_eq_true, if_false] at h
      rw [createLabel] at h
      simp only at h
      rcases hrl : resolveLabelIds rest tid
          (c ++ [{ id := "label-" ++ toString r.nextLabelId, name := nm }])
          { r with labels := r.labels ++ [{ id := "label-" ++ toString r.nextLabelId,
                                            name := nm, team := some tid }],
                   nextLabelId := r.nextLabelId + 1 }
          (t ++ [ApiCall.createLabelCall nm tid]) false with ⟨ids1, cx, rx, tx⟩
      rw [hrl] at h
      cases h
      obtain ⟨Δ, hc, ht, hids, hlab, hiss, htm, hpr, hst, hnx, hfound, habs, hpw, hmm⟩ :=
        ih tid _ _ _ ids1 cx rx tx hrl
      have habsc : ∀ l2 ∈ c, ¬ strLower l2.name = strLower nm := by
        intro l2 hl2 heq
        have hne := List.find?_eq_none.mp hf l2 hl2
        simp only [beq_iff_eq] at hne
        exact hne heq
      have hhead : firstLabelId cx nm = "label-" ++ toString r.nextLabelId := by
        unfold firstLabelId
        rw [hc, List.append_assoc, find?_append_none _ c _ ?hnone]
        case hnone =>
          rw [List.find?_eq_none]
          intro l2 hl2
          simpa using habsc l2 hl2
        rw [List.singleton_append, List.find?_cons_of_pos _ (by simp)]
        rfl
      refine ⟨{ id := "label-" ++ toString r.nextLabelId, name := nm } :: Δ, ?_, ?_, ?_,
        ?_, by simpa using hiss, by simpa using htm, by simpa using hpr,
        by simpa using hst, by simpa using hnx, ?_, ?_, ?_, ?_⟩
      · rw [hc]; simp
      · rw [ht]; simp
      · simp [List.map_cons, hhead, hids]
      · rw [hlab]; simp
      · intro nm2 hnm2
        rcases List.mem_cons.mp hnm2 with rfl | hnm2
        · refine ⟨{ id := "label-" ++ toString r.nextLabelId, name := nm2 }, ?_, by simp⟩
          rw [hc, List.append_assoc]
          exact List.mem_append_right c (List.mem_append_left Δ (by simp))
        · exact hfound nm2 hnm2
      · intro l hl l2 hl2
        rcases List.mem_cons.mp hl with rfl | hl
        · exact habsc l2 hl2
        · exact habs l hl l2 (List.mem_append_left _ hl2)
      · refine List.Pairwise.cons ?_ hpw
        intro l2 hl2
        have hq := habs l2 hl2 { id := "label-" ++ toString r.nextLabelId, name := nm }
          (List.mem_append_right c (by simp))
        simpa using hq
      · intro l hl
        rcases List.mem_cons.mp hl with rfl | hl
        · simp
        · exact List.mem_cons_of_mem nm (hmm l hl)

/-- The ids returned by a real run of the label resolver are one per name. -/
theorem resolveLabelIds_real_length (names : List String) (tid : String)
    (c : List Label) (r : Remote) (t : List ApiCall) (ids : List String)
    (c2 : List Label) (r2 : Remote) (t2 : List ApiCall)
    (h : resolveLabelIds names tid c r t false = (ids, c2, r2, t2)) :
    ids.length = names.length := by
  obtain ⟨Δ, _, _, hids, _⟩ := resolveLabelIds_real names tid c r t ids c2 r2 t2 h
  rw [hids, List.length_map]

/-- If every name already has a case-insensitive hit in the cache, the label
resolver leaves cache, remote and trace unchanged (any mode). -/
theorem resolveLabelIds_stable :
    ∀ (names : List String) (tid : String) (c : List Label) (r : Remote)
      (t : List ApiCall) (dr : Bool),
      (∀ nm ∈ names, ∃ l ∈ c, (strLower l.name == strLower nm) = true) →
      ∃ ids, resolveLabelIds names tid c r t dr = (ids, c, r, t) := by
  intro names
  induction names with
  | nil => intro tid c r t dr _; exact ⟨[], rfl⟩
  | cons nm rest ih =>
    intro tid c r t dr hall
    unfold resolveLabelIds
    cases hf : c.find? (fun l => strLower l.name == strLower nm) with
    | some label =>
      obtain ⟨ids, hids⟩ := ih tid c r t dr (fun nm2 h2 => hall nm2 (List.mem_cons_of_mem nm h2))
      exact ⟨label.id :: ids, by rw [hids]⟩
    | none =>
      obtain ⟨l, hl, hpred⟩ := hall nm (List.mem_cons_self nm rest)
      have := List.find?_eq_none.mp hf l hl
      exact absurd hpred this

/-! ### Small facts about node projections -/

theorem withTitle_identifier (n : IssueNode) (t : String) :
    (n.withTitle t).identifier = n.identifier := by
  cases n; rfl

theorem withSubIssues_title (n : IssueNode) (s : Option (List IssueNode)) :
    (n.withSubIssues s).title = n.title := by
  cases n; rfl

theorem withSubIssues_identifier (n : IssueNode) (s : Option (List IssueNode)) :
    (n.withSubIssues s).identifier = n.identifier := by
  cases n; rfl

theorem withSubIssues_description (n : IssueNode) (s : Option (List IssueNode)) :
    (n.withSubIssues s).description = n.description := by
  cases n; rfl

theorem withSubIssues_status (n : IssueNode) (s : Option (List IssueNode)) :
    (n.withSubIssues s).status = n.status := by
  cases n; rfl

theorem withSubIssues_priority (n : IssueNode) (s : Option (List IssueNode)) :
    (n.withSubIssues s).priority = n.priority := by
  cases n; rfl

theorem withSubIssues_estimate (n : IssueNode) (s : Option (List IssueNode)) :
    (n.withSubIssues s).estimate = n.estimate := by
  cases n; rfl

theorem withSubIssues_labels (n : IssueNode) (s : Option (List IssueNode)) :
    (n.withSubIssues s).labels = n.labels := by
  cases n; rfl

/-! ## Claim C1 -/

/-- Claim C1: the match function is two-tier.  With a truthy identifier the
result is the first snapshot issue whose identifier matches
case-insensitively, independent of the effective-parent argument and of the
node title.  Without one, any returned issue has a case-insensitively equal
title and an agreeing effective parent: no parent for root lookups, exactly
the resolved parent id for child lookups. -/
theorem c1_match_two_tier (es : List Issue) (n : IssueNode) (p : Option String) :
    (strTruthy n.identifier = true →
      (∀ q, findExistingIssue es n q = findExistingIssue es n p) ∧
      (∀ t, findExistingIssue es (n.withTitle t) p = findExistingIssue es n p) ∧
      (∀ i, findExistingIssue es n p = some i →
        ∃ l₁ l₂, es = l₁ ++ i :: l₂ ∧
          strLower i.identifier = strLower (n.identifier.getD "") ∧
          ∀ j ∈ l₁, strLower j.identifier ≠ strLower (n.identifier.getD ""))) ∧
    (strTruthy n.identifier = false →
      ∀ i, findExistingIssue es n p = some i →
        i ∈ es ∧ strLower i.title = strLower n.title ∧
        (strTruthy p = true → i.parent = p) ∧
        (strTruthy p = false → i.parent = none)) := by
  constructor
  · intro h
    refine ⟨fun q => by simp [findExistingIssue, h], ?_, ?_⟩
    · intro t
      simp [findExistingIssue, h, withTitle_identifier]
    · intro i hi
      rw [findExistingIssue, h, if_pos rfl] at hi
      obtain ⟨l₁, l₂, hl, hpa, hall⟩ := find?_split _ es i hi
      refine ⟨l₁, l₂, hl, eq_of_beq hpa, ?_⟩
      intro j hj
      exact ne_of_beq_false (hall j hj)
  · intro h i hi
    simp only [findExistingIssue, h, Bool.false_eq_true, if_false] at hi
    have hmem := List.mem_of_find?_eq_some hi
    have hpred := List.find?_some hi
    rw [Bool.and_eq_true] at hpred
    obtain ⟨htitle, hparent⟩ := hpred
    refine ⟨hmem, eq_of_beq htitle, ?_, ?_⟩
    · intro hp
      rw [hp] at hparent
      simp only [if_pos] at hparent
      exact eq_of_beq hparent
    · intro hp
      rw [hp] at hparent
      simp only [Bool.false_eq_true, if_false] at hparent
      exact eq_of_beq hparent

/-- Witness for C1 at concrete inputs: identifier matching ignores the
effective parent and the title, and a title match reports agreeing parents. -/
theorem c1_match_two_tier_witness :
    (findExistingIssue
        [{ id := "a", identifier := "T-7", title := "X", parent := some "z" }]
        (IssueNode.mk "Y" (some "t-7") none none none none none none) (some "q") =
      findExistingIssue
        [{ id := "a", identifier := "T-7", title := "X", parent := some "z" }]
        (IssueNode.mk "Y" (some "t-7") none none none none none none) none) ∧
    (∀ i, findExistingIssue
        [{ id := "a", identifier := "T-7", title := "X", parent := some "z" }]
        (node "x") none = some i → i.parent = none) := by
  constructor
  · exact ((c1_match_two_tier
      [{ id := "a", identifier := "T-7", title := "X", parent := some "z" }]
      (IssueNode.mk "Y" (some "t-7") none none none none none none) none).1
      (by decide)).1 (some "q")
  · intro i hi
    exact ((c1_match_two_tier
      [{ id := "a", identifier := "T-7", title := "X", parent := some "z" }]
      (node "x") none).2 (by decide) i hi).2.2.2 (by decide)

/-! ## Claim C9 -/

/-- Claim C9: a node status is resolved from the node field first, else the
document default, else none; resolution matches workflow state names
case-insensitively, an unmatched name aborts with an error listing every
state name of the team, and scenario C produces exactly that abort. -/
theorem c9_status_resolution :
    (∀ (n : IssueNode) (ws : List WorkflowState) (d : Option String),
      strTruthy n.status = true → nodeStateId n ws d = resolveStatusId n.status ws) ∧
    (∀ (n : IssueNode) (ws : List WorkflowState) (d : Option String),
      strTruthy n.status = false → nodeStateId n ws d = .ok d) ∧
    (∀ (s : String) (ws : List WorkflowState), (s == "") = false →
      (∀ st ∈ ws, strLower st.name ≠ strLower s) →
      resolveStatusId (some s) ws =
        .error ("Status \"" ++ s ++ "\" not found. Available: " ++
          String.intercalate ", " (ws.map WorkflowState.name))) ∧
    (∀ (s : String) (ws : List WorkflowState) (sid : String),
      resolveStatusId (some s) ws = .ok (some sid) →
      ∃ w ∈ ws, strLower w.name = strLower s ∧ w.id = sid) ∧
    errOf (importCommand docC ffOpts remoteC) =
      some "Status \"Done\" not found. Available: Backlog, Todo, In Progress" := by
  refine ⟨?_, ?_, ?_, ?_, by decide⟩
  · intro n ws d h
    simp [nodeStateId, h]
  · intro n ws d h
    simp [nodeStateId, h]
  · intro s ws hs hnone
    have hfind : ws.find? (fun st => strLower st.name == strLower s) = none := by
      rw [List.find?_eq_none]
      intro st hst
      simpa using hnone st hst
    simp [resolveStatusId, hs, hfind]
  · intro s ws sid h
    unfold resolveStatusId at h
    by_cases hs : (s == "") = true
    · simp [hs] at h
    · rw [Bool.not_eq_true] at hs
      simp only [hs, Bool.false_eq_true, if_false] at h
      cases hfind : ws.find? (fun st => strLower st.name == strLower s) with
      | none => rw [hfind] at h; simp at h
      | some w =>
        rw [hfind] at h
        simp only [Except.ok.injEq, Option.some.injEq] at h
        have hw : (strLower w.name == strLower s) = true := by
          simpa using List.find?_some hfind
        exact ⟨w, List.mem_of_find?_eq_some hfind, eq_of_beq hw, h⟩

/-- Witness for C9 at concrete inputs. -/
theorem c9_status_resolution_witness :
    nodeStateId (IssueNode.mk "X" none none (some "Done") none none none none)
        [{ id := "s9", name := "done" }] none =
      resolveStatusId (some "Done") [{ id := "s9", name := "done" }] ∧
    resolveStatusId (some "Done") [] =
      .error "Status \"Done\" not found. Available: " := by
  constructor
  · exact c9_status_resolution.1
      (IssueNode.mk "X" none none (some "Done") none none none none)
      [{ id := "s9", name := "done" }] none (by decide)
  · exact c9_status_resolution.2.2.1 "Done" [] (by decide) (by simp)

/-! ## Claim C10 -/

/-- Claim C10: a truthy identifier that matches no snapshot issue makes the
node unmatched, even when a title-and-parent match exists, and a real run
then takes the create branch for that node. -/
theorem c10_identifier_no_fallback (es : List Issue) (n : IssueNode) (p : Option String)
    (h1 : strTruthy n.identifier = true)
    (h2 : ∀ i ∈ es, strLower i.identifier ≠ strLower (n.identifier.getD "")) :
    findExistingIssue es n p = none ∧
    (∀ (ctx : Ctx) (st : RunState) (sid : Option String),
      ctx.dryRun = false → st.snapshot = es → n.subIssues = none →
      nodeStateId n ctx.workflowStates ctx.defaultStateId = .ok sid →
      ∃ st2, processTopIssue ctx st n = .ok st2 ∧
        st2.created.length = st.created.length + 1 ∧
        countCreateIssueCalls st2.calls = countCreateIssueCalls st.calls + 1) := by
  have hnone : ∀ q, findExistingIssue es n q = none := by
    intro q
    simp only [findExistingIssue, h1, if_true]
    rw [List.find?_eq_none]
    intro i hi
    simpa using h2 i hi
  refine ⟨hnone p, ?_⟩
  intro ctx st sid hdry hsnap hsubs hsid
  unfold processTopIssue
  rw [hsnap, hnone none]
  obtain ⟨tΔ, htcalls, htlab⟩ := resolveLabelIds_calls_label_only
    (n.labels.getD []) ctx.teamId st.cache st.remote st.calls ctx.dryRun
  rcases hrl : resolveLabelIds (n.labels.getD []) ctx.teamId st.cache st.remote
      st.calls ctx.dryRun with ⟨ids, c1, r1, t1⟩
  rw [hrl] at htcalls
  simp only [hsid, hdry, Bool.false_eq_true, if_false, hsubs]
  refine ⟨_, rfl, ?_, ?_⟩
  · simp [processSubIssues, Option.getD]
  · have ht2 : t1 = st.calls ++ tΔ := by simpa using htcalls
    simp only [processSubIssues, Option.getD]
    rw [ht2]
    unfold countCreateIssueCalls
    simp only [List.filter_append, List.length_append]
    have hz : (tΔ.filter (fun c => match c with
        | ApiCall.createIssueCall _ => true
        | _ => false)).length = 0 := by
      rw [List.length_eq_zero, List.filter_eq_nil_iff]
      intro a ha
      obtain ⟨nm, tid2, rfl⟩ := htlab a ha
      simp
    simp [hz]

/-- Witness for C10 at concrete inputs: identifier `TC-9` matches nothing
although a same-titled root issue exists, and the run creates the node. -/
theorem c10_identifier_no_fallback_witness :
    findExistingIssue [{ id := "a", identifier := "T-1", title := "A", parent := none }]
      (IssueNode.mk "A" (some "TC-9") none none none none none none) none = none ∧
    (∃ st2, processTopIssue
        { teamId := "t1", projectId := none, workflowStates := [],
          defaultStateId := none, dryRun := false, update := false }
        { remote := baseRemote,
          snapshot := [{ id := "a", identifier := "T-1", title := "A", parent := none }],
          cache := [] }
        (IssueNode.mk "A" (some "TC-9") none none none none none none) = .ok st2 ∧
      st2.created.length = 0 + 1 ∧
      countCreateIssueCalls st2.calls = 0 + 1) := by
  have h := c10_identifier_no_fallback
    [{ id := "a", identifier := "T-1", title := "A", parent := none }]
    (IssueNode.mk "A" (some "TC-9") none none none none none none) none
    (by decide) (by decide)
  exact ⟨h.1, h.2
    { teamId := "t1", projectId := none, workflowStates := [],
      defaultStateId := none, dryRun := false, update := false }
    { remote := baseRemote,
      snapshot := [{ id := "a", identifier := "T-1", title := "A", parent := none }],
      cache := [] }
    none rfl rfl rfl rfl⟩

/-! ## Claim C8 -/

/-- Claim C8 (amended): the snapshot contains every team issue among the
first 250 workspace issues, and it is complete whenever the workspace holds
at most 250 issues. -/
theorem c8_snapshot_cap (r : Remote) (tid : String) :
    (∀ i ∈ r.issues.take 250, i.teamId = tid → i.toSnap ∈ getTeamIssues tid r) ∧
    (r.issues.length ≤ 250 →
      ∀ i ∈ r.issues, i.teamId = tid → i.toSnap ∈ getTeamIssues tid r) := by
  constructor
  · intro i hi hteam
    unfold getTeamIssues
    exact List.mem_map_of_mem _ (List.mem_filter.mpr ⟨hi, by simp [hteam]⟩)
  · intro hlen i hi hteam
    unfold getTeamIssues
    rw [List.take_of_length_le hlen]
    exact List.mem_map_of_mem _ (List.mem_filter.mpr ⟨hi, by simp [hteam]⟩)

/-- Witness for the amended C8 on a one-issue workspace. -/
theorem c8_snapshot_cap_witness :
    ({ id := "m1", identifier := "T-9", title := "mine", teamId := "t1" }
        : RemoteIssue).toSnap ∈
      getTeamIssues "t1"
        { teams := [baseTeam],
          issues := [{ id := "m1", identifier := "T-9", title := "mine", teamId := "t1" }] } :=
  (c8_snapshot_cap
    { teams := [baseTeam],
      issues := [{ id := "m1", identifier := "T-9", title := "mine", teamId := "t1" }] }
    "t1").2 (by decide) _ (by decide) rfl

/-- Counterexample to C8 as stated: with 250 issues of another team in
front, an existing issue of the resolved team is absent from the snapshot. -/
theorem c8_counterexample :
    getTeamIssues "t1" remote8 = [] ∧
    ({ id := "m1", identifier := "T-9", title := "mine", teamId := "t1" }
      : RemoteIssue) ∈ remote8.issues ∧
    ({ id := "m1", identifier := "T-9", title := "mine", teamId := "t1" }
      : RemoteIssue).teamId = "t1" :=
  ⟨by decide, by decide, rfl⟩

/-! ## Claim C7 -/

/-- The body of the sub-issue loop appends at most label-create calls plus
one create or update call; any appended `createIssue` call carries the
resolved parent binding as its `parentId`. -/
theorem processSubIssue_parent_calls (ctx : Ctx) (P : Issue) (st : RunState)
    (sub : IssueNode) (st2 : RunState)
    (hdry : ctx.dryRun = false) (hP : (P.id == "") = false)
    (h : processSubIssue ctx P st sub = .ok st2) :
    ∃ Δ, st2.calls = st.calls ++ Δ ∧
      ∀ inp, ApiCall.createIssueCall inp ∈ Δ → inp.parentId = some P.id := by
  unfold processSubIssue at h
  rcases hrl : resolveLabelIds (sub.labels.getD []) ctx.teamId st.cache st.remote
      st.calls ctx.dryRun with ⟨ids, c1, r1, t1⟩
  rw [hrl] at h
  obtain ⟨Δ0, ht1', hlab0⟩ := resolveLabelIds_calls_label_only
    (sub.labels.getD []) ctx.teamId st.cache st.remote st.calls ctx.dryRun
  rw [hrl] at ht1'
  have ht1 : t1 = st.calls ++ Δ0 := by simpa using ht1'
  cases hsid : nodeStateId sub ctx.workflowStates ctx.defaultStateId with
  | error e => rw [hsid] at h; exact absurd h (by simp)
  | ok sid =>
    rw [hsid] at h
    cases hfind : findExistingIssue st.snapshot sub (some P.id) with
    | some ex =>
      rw [hfind] at h
      by_cases hupd : ctx.update = true
      · simp only [hupd, if_true, hdry, Bool.false_eq_true, if_false] at h
        cases hup : updateIssue ex.id (subUpdateInput sub ids sid P ex) r1 with
        | error e => rw [hup] at h; exact absurd h (by simp)
        | ok pr =>
          rw [hup] at h
          simp only [Except.ok.injEq] at h
          subst h
          refine ⟨Δ0 ++ [ApiCall.updateIssueCall ex.id
            (subUpdateInput sub ids sid P ex)], by simp [ht1], ?_⟩
          intro inp hinp
          rcases List.mem_append.mp hinp with hinp | hinp
          · obtain ⟨nm, tid2, heq⟩ := hlab0 _ hinp
            exact absurd heq (by simp)
          · simp at hinp
      · rw [Bool.not_eq_true] at hupd
        simp only [hupd, Bool.false_eq_true, if_false] at h
        simp only [Except.ok.injEq] at h
        subst h
        refine ⟨Δ0, by simp [ht1], ?_⟩
        intro inp hinp
        obtain ⟨nm, tid2, heq⟩ := hlab0 _ hinp
        exact absurd heq (by simp)
    | none =>
      rw [hfind] at h
      simp only [hdry, Bool.false_eq_true, if_false] at h
      simp only [Except.ok.injEq] at h
      subst h
      refine ⟨Δ0 ++ [ApiCall.createIssueCall
        (buildIssueInput sub ctx.teamId ctx.projectId ids sid (some P.id))],
        by simp [ht1], ?_⟩
      intro inp hinp
      rcases List.mem_append.mp hinp with hinp | hinp
      · obtain ⟨nm, tid2, heq⟩ := hlab0 _ hinp
        exact absurd heq (by simp)
      · simp only [List.mem_singleton, ApiCall.createIssueCall.injEq] at hinp
        subst hinp
        simp [buildIssueInput, strTruthy, hP]

/-- The sub-issue loop version of the previous lemma. -/
theorem processSubIssues_parent_calls (ctx : Ctx) (P : Issue)
    (hdry : ctx.dryRun = false) (hP : (P.id == "") = false) :
    ∀ (subs : List IssueNode) (st st2 : RunState),
      processSubIssues ctx P st subs = .ok st2 →
      ∃ Δ, st2.calls = st.calls ++ Δ ∧
        ∀ inp, ApiCall.createIssueCall inp ∈ Δ → inp.parentId = some P.id := by
  intro subs
  induction subs with
  | nil =>
    intro st st2 h
    rw [processSubIssues] at h
    simp only [Except.ok.injEq] at h
    subst h
    exact ⟨[], by simp, by simp⟩
  | cons sub rest ih =>
    intro st st2 h
    rw [processSubIssues] at h
    cases hstep : processSubIssue ctx P st sub with
    | error e => rw [hstep] at h; exact absurd h (by simp)
    | ok st1 =>
      rw [hstep] at h
      obtain ⟨Δ1, hc1, hp1⟩ := processSubIssue_parent_calls ctx P st sub st1 hdry hP hstep
      obtain ⟨Δ2, hc2, hp2⟩ := ih st1 st2 h
      refine ⟨Δ1 ++ Δ2, by rw [hc2, hc1, List.append_assoc], ?_⟩
      intro inp hinp
      rcases List.mem_append.mp hinp with hinp | hinp
      · exact hp1 inp hinp
      · exact hp2 inp hinp

/-- Claim C7 (amended): the engine recurses exactly one level.  First, the
body of the sub-issue loop never reads the nested `subIssues` of a sub-node,
so depth-three nodes are ignored.  Second, in a real run every `createIssue`
call made by the sub-issue loop carries the parent binding as `parentId`.
Third and fourth, the issue skipped for or created from a top-level node is
exactly the parent binding handed to its sub-issue loop. -/
theorem c7_children_recursion :
    (∀ (ctx : Ctx) (P : Issue) (st : RunState) (sub : IssueNode)
       (x : Option (List IssueNode)),
      processSubIssue ctx P st (sub.withSubIssues x) = processSubIssue ctx P st sub) ∧
    (∀ (ctx : Ctx) (P : Issue), ctx.dryRun = false → (P.id == "") = false →
      ∀ (subs : List IssueNode) (st st2 : RunState),
        processSubIssues ctx P st subs = .ok st2 →
        ∃ Δ, st2.calls = st.calls ++ Δ ∧
          ∀ inp, ApiCall.createIssueCall inp ∈ Δ → inp.parentId = some P.id) ∧
    (∀ (ctx : Ctx) (st : RunState) (n : IssueNode) (ex : Issue) (st2 : RunState),
      ctx.update = false →
      findExistingIssue st.snapshot n none = some ex →
      processTopIssue ctx st n = .ok st2 →
      ∃ stm, stm.skipped = st.skipped ++ [ex] ∧
        processSubIssues ctx ex stm (n.subIssues.getD []) = .ok st2) ∧
    (∀ (ctx : Ctx) (st : RunState) (n : IssueNode) (st2 : RunState),
      ctx.dryRun = false →
      findExistingIssue st.snapshot n none = none →
      processTopIssue ctx st n = .ok st2 →
      ∃ ci stm, ci.title = n.title ∧ stm.created = st.created ++ [ci] ∧
        stm.snapshot = st.snapshot ++ [ci] ∧
        processSubIssues ctx ci stm (n.subIssues.getD []) = .ok st2) := by
  refine ⟨?_, ?_, ?_, ?_⟩
  · intro ctx P st sub x
    cases sub
    rfl
  · intro ctx P hdry hP subs st st2 h
    exact processSubIssues_parent_calls ctx P hdry hP subs st st2 h
  · intro ctx st n ex st2 hupd hfind h
    unfold processTopIssue at h
    rcases hrl : resolveLabelIds (n.labels.getD []) ctx.teamId st.cache st.remote
        st.calls ctx.dryRun with ⟨ids, c1, r1, t1⟩
    rw [hrl] at h
    cases hsid : nodeStateId n ctx.workflowStates ctx.defaultStateId with
    | error e => rw [hsid] at h; exact absurd h (by simp)
    | ok sid =>
      rw [hsid, hfind] at h
      simp only [hupd, Bool.false_eq_true, if_false] at h
      exact ⟨_, rfl, h⟩
  · intro ctx st n st2 hdry hfind h
    unfold processTopIssue at h
    rcases hrl : resolveLabelIds (n.labels.getD []) ctx.teamId st.cache st.remote
        st.calls ctx.dryRun with ⟨ids, c1, r1, t1⟩
    rw [hrl] at h
    cases hsid : nodeStateId n ctx.workflowStates ctx.defaultStateId with
    | error e => rw [hsid] at h; exact absurd h (by simp)
    | ok sid =>
      rw [hsid, hfind] at h
      simp only [hdry, Bool.false_eq_true, if_false] at h
      exact ⟨_, _, rfl, rfl, rfl, h⟩

/-- Witness for the amended C7 at concrete inputs. -/
theorem c7_children_recursion_witness :
    processSubIssue
        { teamId := "t1", projectId := none, workflowStates := [],
          defaultStateId := none, dryRun := false, update := false }
        { id := "uuid-1", identifier := "T-1", title := "Epic", parent := none }
        { remote := baseRemote, snapshot := [], cache := [] }
        ((node "Sub").withSubIssues (some [node "Deep"])) =
      processSubIssue
        { teamId := "t1", projectId := none, workflowStates := [],
          defaultStateId := none, dryRun := false, update := false }
        { id := "uuid-1", identifier := "T-1", title := "Epic", parent := none }
        { remote := baseRemote, snapshot := [], cache := [] }
        (node "Sub") :=
  c7_children_recursion.1 _ _ _ (node "Sub") (some [node "Deep"])

/-- Counterexample to C7 as stated: the document nests node `C` at depth
three, the run succeeds, and no remote mutation ever mentions `C` — the
node is ignored, not processed. -/
theorem c7_counterexample :
    (((docDeep.issues.head?.bind (fun n => (n.subIssues.getD []).head?)).bind
        (fun b => (b.subIssues.getD []).head?)).map IssueNode.title = some "C") ∧
    ((importCommand docDeep ffOpts baseRemote).toOption.map fun res =>
      (res.created.map Issue.title, res.updated.length, res.skipped.length,
       (res.calls.filter (fun c => match c with
         | ApiCall.createIssueCall i => i.title == "C"
         | _ => false)).length)) = some (["A", "B"], 0, 0, 0) := by
  constructor
  · decide
  · decide

/-! ## Claim C3 -/

/-- Claim C3 (amended): update patches are partial.  For a matched sub-issue
the patch carries description, label ids and status only when the node
specifies them, and `parentId` exactly when the resolved parent differs from
the matched issue's current parent.  For a matched root-level node the patch
carries the same three optional fields but never a `parentId`, even when the
matched issue currently has a parent. -/
theorem c3_partial_patch (ctx : Ctx) (st : RunState)
    (hdry : ctx.dryRun = false) (hupd : ctx.update = true) :
    (∀ (sub : IssueNode) (P : Issue) (ex : Issue) (st2 : RunState),
      findExistingIssue st.snapshot sub (some P.id) = some ex →
      processSubIssue ctx P st sub = .ok st2 →
      ∃ ids sid Δ0,
        (∀ a ∈ Δ0, ∃ nm tid2, a = ApiCall.createLabelCall nm tid2) ∧
        st2.calls = st.calls ++ Δ0 ++
          [ApiCall.updateIssueCall ex.id (subUpdateInput sub ids sid P ex)] ∧
        ids.length = (sub.labels.getD []).length ∧
        ((subUpdateInput sub ids sid P ex).description.isSome ↔
          strTruthy sub.description = true) ∧
        ((subUpdateInput sub ids sid P ex).labelIds.isSome ↔ sub.labels.getD [] ≠ []) ∧
        (subUpdateInput sub ids sid P ex).stateId =
          (if strTruthy sid then sid else none) ∧
        ((P.id == "") = false →
          ((subUpdateInput sub ids sid P ex).parentId = some P.id ↔
            ¬ ex.parent = some P.id) ∧
          (ex.parent = some P.id → (subUpdateInput sub ids sid P ex).parentId = none))) ∧
    (∀ (n : IssueNode) (ex : Issue) (st2 : RunState), n.subIssues = none →
      findExistingIssue st.snapshot n none = some ex →
      processTopIssue ctx st n = .ok st2 →
      ∃ ids sid Δ0,
        (∀ a ∈ Δ0, ∃ nm tid2, a = ApiCall.createLabelCall nm tid2) ∧
        st2.calls = st.calls ++ Δ0 ++
          [ApiCall.updateIssueCall ex.id (topUpdateInput n ids sid)] ∧
        ids.length = (n.labels.getD []).length ∧
        ((topUpdateInput n ids sid).description.isSome ↔ strTruthy n.description = true) ∧
        ((topUpdateInput n ids sid).labelIds.isSome ↔ n.labels.getD [] ≠ []) ∧
        (topUpdateInput n ids sid).stateId = (if strTruthy sid then sid else none) ∧
        (topUpdateInput n ids sid).parentId = none) := by
  have hdesc : ∀ (d : Option String),
      (if strTruthy d = true then d else none).isSome = true ↔ strTruthy d = true := by
    intro d
    cases d with
    | none => simp [strTruthy]
    | some v =>
      by_cases hv : strTruthy (some v) = true
      · simp [hv]
      · rw [Bool.not_eq_true] at hv
        simp [hv]
  have hlabs : ∀ (ids : List String) (names : List String), ids.length = names.length →
      ((if ids.length > 0 then some ids else none).isSome = true ↔ names ≠ []) := by
    intro ids names hlen
    cases names with
    | nil => simp at hlen; simp [hlen]
    | cons a as =>
      have : ids.length > 0 := by rw [hlen]; simp
      simp [this]
  constructor
  · intro sub P ex st2 hfind h
    unfold processSubIssue at h
    rw [hdry] at h
    rcases hrl : resolveLabelIds (sub.labels.getD []) ctx.teamId st.cache st.remote
        st.calls false with ⟨ids, c1, r1, t1⟩
    rw [hrl] at h
    obtain ⟨Δ0, ht1', hlab0⟩ := resolveLabelIds_calls_label_only
      (sub.labels.getD []) ctx.teamId st.cache st.remote st.calls false
    rw [hrl] at ht1'
    have ht1 : t1 = st.calls ++ Δ0 := by simpa using ht1'
    cases hsid : nodeStateId sub ctx.workflowStates ctx.defaultStateId with
    | error e => rw [hsid] at h; exact absurd h (by simp)
    | ok sid =>
      rw [hsid, hfind] at h
      simp only [hupd, if_true, Bool.false_eq_true, if_false] at h
      cases hup : updateIssue ex.id (subUpdateInput sub ids sid P ex) r1 with
      | error e => rw [hup] at h; exact absurd h (by simp)
      | ok pr =>
        rw [hup] at h
        simp only [Except.ok.injEq] at h
        subst h
        refine ⟨ids, sid, Δ0, hlab0, by simp [ht1], ?_, hdesc sub.description,
          hlabs ids _ ?_, rfl, ?_⟩
        · exact resolveLabelIds_real_length _ _ _ _ _ _ _ _ _ hrl
        · exact resolveLabelIds_real_length _ _ _ _ _ _ _ _ _ hrl
        · intro hP
          constructor
          · unfold subUpdateInput
            simp only [hP, Bool.not_false, Bool.true_and]
            by_cases hex : (ex.parent == some P.id) = true
            · have := eq_of_beq hex
              simp [hex, this]
            · rw [Bool.not_eq_true] at hex
              have hne := ne_of_beq_false hex
              simp [hex, hne]
          · intro hex
            unfold subUpdateInput
            simp [hex]
  · intro n ex st2 hsubs hfind h
    unfold processTopIssue at h
    rw [hdry] at h
    rcases hrl : resolveLabelIds (n.labels.getD []) ctx.teamId st.cache st.remote
        st.calls false with ⟨ids, c1, r1, t1⟩
    rw [hrl] at h
    obtain ⟨Δ0, ht1', hlab0⟩ := resolveLabelIds_calls_label_only
      (n.labels.getD []) ctx.teamId st.cache st.remote st.calls false
    rw [hrl] at ht1'
    have ht1 : t1 = st.calls ++ Δ0 := by simpa using ht1'
    cases hsid : nodeStateId n ctx.workflowStates ctx.defaultStateId with
    | error e => rw [hsid] at h; exact absurd h (by simp)
    | ok sid =>
      rw [hsid, hfind] at h
      simp only [hupd, if_true, Bool.false_eq_true, if_false] at h
      cases hup : updateIssue ex.id (topUpdateInput n ids sid) r1 with
      | error e => rw [hup] at h; exact absurd h (by simp)
      | ok pr =>
        rw [hup] at h
        rcases pr with ⟨upd, r2⟩
        rw [hsubs] at h
        simp only [Option.getD, processSubIssues, Except.ok.injEq] at h
        subst h
        refine ⟨ids, sid, Δ0, hlab0, by simp [ht1], ?_, hdesc n.description,
          hlabs ids _ ?_, rfl, rfl⟩
        · exact resolveLabelIds_real_length _ _ _ _ _ _ _ _ _ hrl
        · exact resolveLabelIds_real_length _ _ _ _ _ _ _ _ _ hrl

/-- Witness for the amended C3: a reparenting sub-issue update carries the
new parent id in its patch. -/
theorem c3_partial_patch_witness :
    ∃ st2 ids sid Δ0,
      processSubIssue ctxUpd newParent stW subS = .ok st2 ∧
      st2.calls = stW.calls ++ Δ0 ++
        [ApiCall.updateIssueCall "s1" (subUpdateInput subS ids sid newParent exS)] ∧
      (subUpdateInput subS ids sid newParent exS).parentId = some "p2" := by
  obtain ⟨st2, hrun⟩ : ∃ st2, processSubIssue ctxUpd newParent stW subS = .ok st2 := by
    cases h : processSubIssue ctxUpd newParent stW subS with
    | ok s => exact ⟨s, rfl⟩
    | error e =>
      have hnone : (processSubIssue ctxUpd newParent stW subS).toOption = none := by
        rw [h]; rfl
      have hsome : ¬ (processSubIssue ctxUpd newParent stW subS).toOption = none := by
        decide
      exact absurd hnone hsome
  obtain ⟨ids, sid, Δ0, hlab0, hcalls, hlen, hdesc, hlabels, hstate, hpar⟩ :=
    (c3_partial_patch ctxUpd stW rfl rfl).1 subS newParent exS st2 (by decide) hrun
  exact ⟨st2, ids, sid, Δ0, hrun, hcalls, ((hpar (by decide)).1).mpr (by decide)⟩

/-- Counterexample to C3 as stated: a root-level node matched by identifier
to an issue that currently has a parent yields a patch with no `parentId`,
although the resolved effective parent (none) differs from the current
parent. -/
theorem c3_counterexample :
    ((importCommand doc3 { update := true } remote3).toOption.map fun res => res.calls) =
      some [ApiCall.updateIssueCall "s1"
        { description := none, labelIds := none, stateId := none, parentId := none }] ∧
    (remote3.issues.find? (fun i => i.id == "s1")).map RemoteIssue.parent =
      some (some "p1") :=
  ⟨by decide, by decide⟩

/-! ## Claim C4 -/

/-- Claim C4 (amended): in a real run the snapshot is appended to after
every create, before the next node is examined; but after an update —
including one that changes the parent link — the snapshot is not touched,
so it keeps the stale record. -/
theorem c4_snapshot_writeback (ctx : Ctx) (st : RunState) (hdry : ctx.dryRun = false) :
    (∀ (P : Issue) (sub : IssueNode) (st2 : RunState),
      findExistingIssue st.snapshot sub (some P.id) = none →
      processSubIssue ctx P st sub = .ok st2 →
      ∃ ci : Issue, ci.title = sub.title ∧
        st2.snapshot = st.snapshot ++ [{ ci with parent := some P.id }]) ∧
    (∀ (P : Issue) (sub : IssueNode) (ex : Issue) (st2 : RunState),
      findExistingIssue st.snapshot sub (some P.id) = some ex →
      processSubIssue ctx P st sub = .ok st2 →
      st2.snapshot = st.snapshot) ∧
    (∀ (n : IssueNode) (st2 : RunState), n.subIssues = none →
      findExistingIssue st.snapshot n none = none →
      processTopIssue ctx st n = .ok st2 →
      ∃ ci : Issue, ci.title = n.title ∧ st2.snapshot = st.snapshot ++ [ci]) ∧
    (∀ (n : IssueNode) (ex : Issue) (st2 : RunState), n.subIssues = none →
      findExistingIssue st.snapshot n none = some ex →
      processTopIssue ctx st n = .ok st2 →
      st2.snapshot = st.snapshot) := by
  refine ⟨?_, ?_, ?_, ?_⟩
  · intro P sub st2 hfind h
    unfold processSubIssue at h
    rw [hdry] at h
    rcases hrl : resolveLabelIds (sub.labels.getD []) ctx.teamId st.cache st.remote
        st.calls false with ⟨ids, c1, r1, t1⟩
    rw [hrl] at h
    cases hsid : nodeStateId sub ctx.workflowStates ctx.defaultStateId with
    | error e => rw [hsid] at h; exact absurd h (by simp)
    | ok sid =>
      rw [hsid, hfind] at h
      simp only [Bool.false_eq_true, if_false, Except.ok.injEq] at h
      subst h
      exact ⟨_, rfl, rfl⟩
  · intro P sub ex st2 hfind h
    unfold processSubIssue at h
    rw [hdry] at h
    rcases hrl : resolveLabelIds (sub.labels.getD []) ctx.teamId st.cache st.remote
        st.calls false with ⟨ids, c1, r1, t1⟩
    rw [hrl] at h
    cases hsid : nodeStateId sub ctx.workflowStates ctx.defaultStateId with
    | error e => rw [hsid] at h; exact absurd h (by simp)
    | ok sid =>
      rw [hsid, hfind] at h
      by_cases hupd : ctx.update = true
      · simp only [hupd, if_true, Bool.false_eq_true, if_false] at h
        cases hup : updateIssue ex.id (subUpdateInput sub ids sid P ex) r1 with
        | error e => rw [hup] at h; exact absurd h (by simp)
        | ok pr =>
          rw [hup] at h
          simp only [Except.ok.injEq] at h
          subst h
          rfl
      · rw [Bool.not_eq_true] at hupd
        simp only [hupd, Bool.false_eq_true, if_false, Except.ok.injEq] at h
        subst h
        rfl
  · intro n st2 hsubs hfind h
    unfold processTopIssue at h
    rw [hdry] at h
    rcases hrl : resolveLabelIds (n.labels.getD []) ctx.teamId st.cache st.remote
        st.calls false with ⟨ids, c1, r1, t1⟩
    rw [hrl] at h
    cases hsid : nodeStateId n ctx.workflowStates ctx.defaultStateId with
    | error e => rw [hsid] at h; exact absurd h (by simp)
    | ok sid =>
      rw [hsid, hfind, hsubs] at h
      simp only [Bool.false_eq_true, if_false, Option.getD, processSubIssues,
        Except.ok.injEq] at h
      subst h
      exact ⟨_, rfl, rfl⟩
  · intro n ex st2 hsubs hfind h
    unfold processTopIssue at h
    rw [hdry] at h
    rcases hrl : resolveLabelIds (n.labels.getD []) ctx.teamId st.cache st.remote
        st.calls false with ⟨ids, c1, r1, t1⟩
    rw [hrl] at h
    cases hsid : nodeStateId n ctx.workflowStates ctx.defaultStateId with
    | error e => rw [hsid] at h; exact absurd h (by simp)
    | ok sid =>
      rw [hsid, hfind, hsubs] at h
      by_cases hupd : ctx.update = true
      · simp only [hupd, if_true, Bool.false_eq_true, if_false] at h
        cases hup : updateIssue ex.id (topUpdateInput n ids sid) r1 with
        | error e => rw [hup] at h; exact absurd h (by simp)
        | ok pr =>
          rw [hup] at h
          rcases pr with ⟨upd, r2⟩
          simp only [Option.getD, processSubIssues, Except.ok.injEq] at h
          subst h
          rfl
      · rw [Bool.not_eq_true] at hupd
        simp only [hupd, Bool.false_eq_true, if_false, Option.getD, processSubIssues,
          Except.ok.injEq] at h
        subst h
        rfl

/-- Witness for the amended C4: a concrete create run appends the created
issue to the snapshot. -/
theorem c4_snapshot_writeback_witness :
    ∃ st2 ci, processSubIssue ctxReal newParent
        ({ remote := remote4, snapshot := [], cache := [] } : RunState) (node "Sub") =
        .ok st2 ∧
      (ci : Issue).title = "Sub" ∧
      st2.snapshot = [{ ci with parent := some "p2" }] := by
  obtain ⟨st2, hrun⟩ : ∃ st2, processSubIssue ctxReal newParent
      ({ remote := remote4, snapshot := [], cache := [] } : RunState) (node "Sub") =
      .ok st2 := by
    cases h : processSubIssue ctxReal newParent
        ({ remote := remote4, snapshot := [], cache := [] } : RunState) (node "Sub") with
    | ok s => exact ⟨s, rfl⟩
    | error e =>
      have hnone : (processSubIssue ctxReal newParent
          ({ remote := remote4, snapshot := [], cache := [] } : RunState)
          (node "Sub")).toOption = none := by
        rw [h]; rfl
      have hsome : ¬ (processSubIssue ctxReal newParent
          ({ remote := remote4, snapshot := [], cache := [] } : RunState)
          (node "Sub")).toOption = none := by
        decide
      exact absurd hnone hsome
  obtain ⟨ci, hci, hsnap⟩ := (c4_snapshot_writeback ctxReal
    { remote := remote4, snapshot := [], cache := [] } rfl).1
    newParent (node "Sub") st2 (by decide) hrun
  refine ⟨st2, ci, hrun, hci, ?_⟩
  simpa using hsnap

/-- Counterexample to C4 as stated: a real reparenting update is committed
to the remote service (parent becomes `p2`) but the snapshot entry keeps the
stale parent `p1`, so the snapshot does not reflect the update. -/
theorem c4_counterexample :
    ((importCommand doc4 { update := true } remote4).toOption.map fun res =>
      ((res.snapshot.find? (fun i => i.id == "s1")).map Issue.parent,
       (res.remote.issues.find? (fun i => i.id == "s1")).map RemoteIssue.parent,
       (res.calls.filter (fun c => match c with
         | ApiCall.updateIssueCall _ ui => ui.parentId == some "p2"
         | _ => false)).length)) = some (some (some "p1"), some (some "p2"), 1) := by
  decide

/-! ## Claim C5 -/

/-- A dry-run step of the sub-issue loop issues no remote calls, leaves the
remote state, snapshot and cache untouched, and records the node in exactly
one aggregate. -/
theorem processSubIssue_dry (ctx : Ctx) (P : Issue) (st : RunState) (sub : IssueNode)
    (st2 : RunState) (hdry : ctx.dryRun = true)
    (h : processSubIssue ctx P st sub = .ok st2) :
    st2.remote = st.remote ∧ st2.calls = st.calls ∧ st2.snapshot = st.snapshot ∧
    st2.cache = st.cache ∧
    st2.created.length + st2.updated.length + st2.skipped.length =
      st.created.length + st.updated.length + st.skipped.length + 1 := by
  unfold processSubIssue at h
  rw [hdry] at h
  obtain ⟨ids0, hrl0⟩ := resolveLabelIds_dry (sub.labels.getD []) ctx.teamId
    st.cache st.remote st.calls
  rw [hrl0] at h
  cases hsid : nodeStateId sub ctx.workflowStates ctx.defaultStateId with
  | error e => rw [hsid] at h; exact absurd h (by simp)
  | ok sid =>
    rw [hsid] at h
    cases hfind : findExistingIssue st.snapshot sub (some P.id) with
    | some ex =>
      rw [hfind] at h
      by_cases hupd : ctx.update = true
      · simp only [hupd, if_true, Except.ok.injEq] at h
        subst h
        refine ⟨rfl, rfl, rfl, rfl, ?_⟩
        simp only [List.length_append, List.length_cons, List.length_nil]
        omega
      · rw [Bool.not_eq_true] at hupd
        simp only [hupd, Bool.false_eq_true, if_false, Except.ok.injEq] at h
        subst h
        refine ⟨rfl, rfl, rfl, rfl, ?_⟩
        simp only [List.length_append, List.length_cons, List.length_nil]
        omega
    | none =>
      rw [hfind] at h
      simp only [if_true, Except.ok.injEq] at h
      subst h
      refine ⟨rfl, rfl, rfl, rfl, ?_⟩
      simp only [List.length_append, List.length_cons, List.length_nil]
      omega

/-- Dry-run version of the sub-issue loop: no calls, no state change, one
aggregate entry per sub-issue. -/
theorem processSubIssues_dry (ctx : Ctx) (P : Issue) (hdry : ctx.dryRun = true) :
    ∀ (subs : List IssueNode) (st st2 : RunState),
      processSubIssues ctx P st subs = .ok st2 →
      st2.remote = st.remote ∧ st2.calls = st.calls ∧ st2.snapshot = st.snapshot ∧
      st2.cache = st.cache ∧
      st2.created.length + st2.updated.length + st2.skipped.length =
        st.created.length + st.updated.length + st.skipped.length + subs.length := by
  intro subs
  induction subs with
  | nil =>
    intro st st2 h
    rw [processSubIssues] at h
    simp only [Except.ok.injEq] at h
    subst h
    exact ⟨rfl, rfl, rfl, rfl, rfl⟩
  | cons sub rest ih =>
    intro st st2 h
    rw [processSubIssues] at h
    cases hstep : processSubIssue ctx P st sub with
    | error e => rw [hstep] at h; exact absurd h (by simp)
    | ok st1 =>
      rw [hstep] at h
      obtain ⟨h1, h2, h3, h4, h5⟩ := processSubIssue_dry ctx P st sub st1 hdry hstep
      obtain ⟨g1, g2, g3, g4, g5⟩ := ih st1 st2 h
      refine ⟨g1.trans h1, g2.trans h2, g3.trans h3, g4.trans h4, ?_⟩
      rw [g5, h5]
      simp [List.length_cons]
      omega

/-- A dry-run step of the top-level loop: no calls, no state change, one
aggregate entry for the node plus one per direct sub-issue. -/
theorem processTopIssue_dry (ctx : Ctx) (st : RunState) (n : IssueNode)
    (st2 : RunState) (hdry : ctx.dryRun = true)
    (h : processTopIssue ctx st n = .ok st2) :
    st2.remote = st.remote ∧ st2.calls = st.calls ∧ st2.snapshot = st.snapshot ∧
    st2.cache = st.cache ∧
    st2.created.length + st2.updated.length + st2.skipped.length =
      st.created.length + st.updated.length + st.skipped.length + countVisitedNode n := by
  unfold processTopIssue at h
  rw [hdry] at h
  obtain ⟨ids0, hrl0⟩ := resolveLabelIds_dry (n.labels.getD []) ctx.teamId
    st.cache st.remote st.calls
  rw [hrl0] at h
  cases hsid : nodeStateId n ctx.workflowStates ctx.defaultStateId with
  | error e => rw [hsid] at h; exact absurd h (by simp)
  | ok sid =>
    rw [hsid] at h
    cases hfind : findExistingIssue st.snapshot n none with
    | some ex =>
      rw [hfind] at h
      by_cases hupd : ctx.update = true
      · simp only [hupd, if_true] at h
        obtain ⟨g1, g2, g3, g4, g5⟩ := processSubIssues_dry ctx ex hdry
          (n.subIssues.getD []) _ st2 h
        refine ⟨g1, g2, g3, g4, ?_⟩
        rw [g5]
        unfold countVisitedNode
        simp only [List.length_append, List.length_cons, List.length_nil]
        omega
      · rw [Bool.not_eq_true] at hupd
        simp only [hupd, Bool.false_eq_true, if_false] at h
        obtain ⟨g1, g2, g3, g4, g5⟩ := processSubIssues_dry ctx ex hdry
          (n.subIssues.getD []) _ st2 h
        refine ⟨g1, g2, g3, g4, ?_⟩
        rw [g5]
        unfold countVisitedNode
        simp only [List.length_append, List.length_cons, List.length_nil]
        omega
    | none =>
      rw [hfind] at h
      simp only [if_true] at h
      obtain ⟨g1, g2, g3, g4, g5⟩ := processSubIssues_dry ctx
        { id := "dry-run-id", identifier := "DRY-1", title := n.title, parent := none }
        hdry (n.subIssues.getD []) _ st2 h
      refine ⟨g1, g2, g3, g4, ?_⟩
      rw [g5]
      unfold countVisitedNode
      simp only [List.length_append, List.length_cons, List.length_nil]
      omega

/-- Dry-run version of the whole issue loop. -/
theorem processIssues_dry (ctx : Ctx) (hdry : ctx.dryRun = true) :
    ∀ (ns : List IssueNode) (st st2 : RunState),
      processIssues ctx st ns = .ok st2 →
      st2.remote = st.remote ∧ st2.calls = st.calls ∧ st2.snapshot = st.snapshot ∧
      st2.cache = st.cache ∧
      st2.created.length + st2.updated.length + st2.skipped.length =
        st.created.length + st.updated.length + st.skipped.length + countVisited ns := by
  intro ns
  induction ns with
  | nil =>
    intro st st2 h
    rw [processIssues] at h
    simp only [Except.ok.injEq] at h
    subst h
    exact ⟨rfl, rfl, rfl, rfl, by simp [countVisited]⟩
  | cons n rest ih =>
    intro st st2 h
    rw [processIssues] at h
    cases hstep : processTopIssue ctx st n with
    | error e => rw [hstep] at h; exact absurd h (by simp)
    | ok st1 =>
      rw [hstep] at h
      obtain ⟨h1, h2, h3, h4, h5⟩ := processTopIssue_dry ctx st n st1 hdry hstep
      obtain ⟨g1, g2, g3, g4, g5⟩ := ih st1 st2 h
      refine ⟨g1.trans h1, g2.trans h2, g3.trans h3, g4.trans h4, ?_⟩
      rw [g5, h5]
      unfold countVisited
      simp [List.map_cons, List.sum_cons]
      omega

/-- Claim C5 (amended): a successful dry run issues no remote mutation at
all (no `createIssue`, `updateIssue` or `createLabel` — the call trace is
empty and the remote state is returned unchanged) and records every
top-level node and every direct sub-issue node in exactly one of the
created/updated/skipped aggregates.  (The aggregate shape can differ from a
real run of the same document, and depth-three nodes are not visited.) -/
theorem c5_dry_run_purity (data : ImportData) (opts : Options) (r : Remote)
    (res : RunState) (hdry : opts.dryRun = true)
    (h : importCommand data opts r = .ok res) :
    res.calls = [] ∧ res.remote = r ∧
    res.created.length + res.updated.length + res.skipped.length =
      countVisited data.issues := by
  unfold importCommand at h
  cases hv : validateImportData data with
  | error e => rw [hv] at h; exact absurd h (by simp)
  | ok u =>
    rw [hv] at h
    cases ht : getTeamByName data.team r with
    | none => rw [ht] at h; exact absurd h (by simp)
    | some team =>
      rw [ht] at h
      dsimp only at h
      cases hd : (if strTruthy data.defaultStatus = true then
          resolveStatusId data.defaultStatus (getWorkflowStates team.id r)
        else .ok none) with
      | error e => rw [hd] at h; exact absurd h (by simp)
      | ok dsid =>
        rw [hd] at h
        obtain ⟨h1, h2, h3, h4, h5⟩ := processIssues_dry
          { teamId := team.id,
            projectId := (if strTruthy data.project = true then
                getProjectByName (data.project.getD "") r
              else none).map Project.id,
            workflowStates := getWorkflowStates team.id r,
            defaultStateId := dsid, dryRun := opts.dryRun, update := opts.update }
          hdry data.issues _ res h
        refine ⟨h2, h1, ?_⟩
        simpa using h5

/-- Witness for the amended C5: the dry run of scenario A visits both nodes
with an empty call trace and unchanged remote. -/
theorem c5_dry_run_purity_witness :
    ∃ res, importCommand docA { dryRun := true } baseRemote = .ok res ∧
      (res.calls = [] ∧ res.remote = baseRemote ∧
        res.created.length + res.updated.length + res.skipped.length =
          countVisited docA.issues) := by
  obtain ⟨res, hrun⟩ : ∃ res, importCommand docA { dryRun := true } baseRemote =
      .ok res := by
    cases h : importCommand docA { dryRun := true } baseRemote with
    | ok s => exact ⟨s, rfl⟩
    | error e =>
      have hnone : (importCommand docA { dryRun := true } baseRemote).toOption = none := by
        rw [h]; rfl
      have hsome : ¬ (importCommand docA { dryRun := true } baseRemote).toOption = none := by
        decide
      exact absurd hnone hsome
  exact ⟨res, hrun, c5_dry_run_purity docA { dryRun := true } baseRemote res rfl hrun⟩

/-- Counterexample to C5 as stated: on a document with two identically
titled roots, the dry run reports two creates while the real run reports
one create and one skip — the dry-run aggregates do not have the shape the
real run would report. -/
theorem c5_counterexample :
    ((importCommand doc2A { dryRun := true } baseRemote).toOption.map fun res =>
      (res.created.length, res.updated.length, res.skipped.length)) = some (2, 0, 0) ∧
    ((importCommand doc2A ffOpts baseRemote).toOption.map fun res =>
      (res.created.length, res.updated.length, res.skipped.length)) = some (1, 0, 1) :=
  ⟨by decide, by decide⟩

/-! ## Claim C6 -/

theorem countLabelCalls_append (t t2 : List ApiCall) (w : String) :
    countLabelCalls (t ++ t2) w = countLabelCalls t w + countLabelCalls t2 w := by
  unfold countLabelCalls
  rw [List.filter_append, List.length_append]

theorem countLabelCalls_map_create (Δ : List Label) (tid : String) (w : String) :
    countLabelCalls (Δ.map (fun l => ApiCall.createLabelCall l.name tid)) w =
      countNames Δ w := by
  induction Δ with
  | nil => rfl
  | cons l Δ ih =>
    unfold countLabelCalls countNames at *
    by_cases hl : (strLower l.name == w) = true
    · simp only [List.map_cons, List.filter_cons, hl]
      simpa using ih
    · rw [Bool.not_eq_true] at hl
      simp only [List.map_cons, List.filter_cons, hl]
      simpa using ih

theorem countLabelCalls_create_issue (inp : IssueInput) (w : String) :
    countLabelCalls [ApiCall.createIssueCall inp] w = 0 := rfl

theorem countLabelCalls_update_issue (i : String) (ui : UpdateInput) (w : String) :
    countLabelCalls [ApiCall.updateIssueCall i ui] w = 0 := rfl

theorem cacheGrowth_refl (c : List Label) (t : List ApiCall) :
    CacheGrowth c c t t [] := by
  refine ⟨by simp, fun w => by simp [countNames, countLabelCalls], by simp, by simp⟩

theorem cacheGrowth_trans {c c1 c2 : List Label} {t t1 t2 : List ApiCall}
    {Δ1 Δ2 : List Label}
    (h1 : CacheGrowth c c1 t t1 Δ1) (h2 : CacheGrowth c1 c2 t1 t2 Δ2) :
    CacheGrowth c c2 t t2 (Δ1 ++ Δ2) := by
  obtain ⟨hc1, hn1, ha1, hp1⟩ := h1
  obtain ⟨hc2, hn2, ha2, hp2⟩ := h2
  refine ⟨by rw [hc2, hc1, List.append_assoc], ?_, ?_, ?_⟩
  · intro w
    rw [hn2 w, hn1 w]
    unfold countNames
    rw [List.filter_append, List.length_append]
    omega
  · intro l hl l2 hl2
    rcases List.mem_append.mp hl with hl | hl
    · exact ha1 l hl l2 hl2
    · exact ha2 l hl l2 (by rw [hc1]; exact List.mem_append_left Δ1 hl2)
  · rw [List.pairwise_append]
    refine ⟨hp1, hp2, ?_⟩
    intro l1 hl1 l2 hl2
    exact ha2 l2 hl2 l1 (by rw [hc1]; exact List.mem_append_right c hl1)

theorem cacheGrowth_same_calls {c c2 : List Label} {t t2 : List ApiCall}
    {Δ : List Label} (h : CacheGrowth c c2 t t2 Δ) (t3 : List ApiCall)
    (hz : ∀ w, countLabelCalls t3 w = 0) :
    CacheGrowth c c2 t (t2 ++ t3) Δ := by
  obtain ⟨hc, hn, ha, hp⟩ := h
  refine ⟨hc, ?_, ha, hp⟩
  intro w
  rw [countLabelCalls_append, hn w, hz w]
  omega

/-- The label resolver segment of a node establishes the cache-growth
relation and leaves every referenced name resolvable in the new cache. -/
theorem resolveLabelIds_growth (names : List String) (tid : String) (c : List Label)
    (r : Remote) (t : List ApiCall) (ids : List String) (c2 : List Label) (r2 : Remote)
    (t2 : List ApiCall) (h : resolveLabelIds names tid c r t false = (ids, c2, r2, t2)) :
    ∃ Δ, CacheGrowth c c2 t t2 Δ ∧
      ∀ nm ∈ names, ∃ l ∈ c2, (strLower l.name == strLower nm) = true := by
  obtain ⟨Δ, hc, ht, hids, hlab, hiss, htm, hpr, hst, hnx, hfound, habs, hpw, hmm⟩ :=
    resolveLabelIds_real names tid c r t ids c2 r2 t2 h
  refine ⟨Δ, ⟨hc, ?_, habs, hpw⟩, hfound⟩
  intro w
  rw [ht, countLabelCalls_append, countLabelCalls_map_create]

/-- Cache growth across one real step of the sub-issue loop. -/
theorem processSubIssue_growth (ctx : Ctx) (P : Issue) (st : RunState) (sub : IssueNode)
    (st2 : RunState) (hdry : ctx.dryRun = false)
    (h : processSubIssue ctx P st sub = .ok st2) :
    ∃ Δ, CacheGrowth st.cache st2.cache st.calls st2.calls Δ ∧
      ∀ nm ∈ sub.labels.getD [], ∃ l ∈ st2.cache, (strLower l.name == strLower nm) = true := by
  unfold processSubIssue at h
  rw [hdry] at h
  rcases hrl : resolveLabelIds (sub.labels.getD []) ctx.teamId st.cache st.remote
      st.calls false with ⟨ids, c1, r1, t1⟩
  rw [hrl] at h
  obtain ⟨Δ, hgrow, hfound⟩ := resolveLabelIds_growth _ _ _ _ _ _ _ _ _ hrl
  cases hsid : nodeStateId sub ctx.workflowStates ctx.defaultStateId with
  | error e => rw [hsid] at h; exact absurd h (by simp)
  | ok sid =>
    rw [hsid] at h
    cases hfind : findExistingIssue st.snapshot sub (some P.id) with
    | some ex =>
      rw [hfind] at h
      by_cases hupd : ctx.update = true
      · simp only [hupd, if_true, Bool.false_eq_true, if_false] at h
        cases hup : updateIssue ex.id (subUpdateInput sub ids sid P ex) r1 with
        | error e => rw [hup] at h; exact absurd h (by simp)
        | ok pr =>
          rw [hup] at h
          simp only [Except.ok.injEq] at h
          subst h
          exact ⟨Δ, cacheGrowth_same_calls hgrow _
            (fun w => countLabelCalls_update_issue _ _ w), hfound⟩
      · rw [Bool.not_eq_true] at hupd
        simp only [hupd, Bool.false_eq_true, if_false, Except.ok.injEq] at h
        subst h
        exact ⟨Δ, hgrow, hfound⟩
    | none =>
      rw [hfind] at h
      simp only [Bool.false_eq_true, if_false, Except.ok.injEq] at h
      subst h
      exact ⟨Δ, cacheGrowth_same_calls hgrow _
        (fun w => countLabelCalls_create_issue _ w), hfound⟩

/-- Cache growth across a real run of the sub-issue loop. -/
theorem processSubIssues_growth (ctx : Ctx) (P : Issue) (hdry : ctx.dryRun = false) :
    ∀ (subs : List IssueNode) (st st2 : RunState),
      processSubIssues ctx P st subs = .ok st2 →
      ∃ Δ, CacheGrowth st.cache st2.cache st.calls st2.calls Δ ∧
        ∀ nm ∈ subs.flatMap (fun sb => sb.labels.getD []),
          ∃ l ∈ st2.cache, (strLower l.name == strLower nm) = true := by
  intro subs
  induction subs with
  | nil =>
    intro st st2 h
    rw [processSubIssues] at h
    simp only [Except.ok.injEq] at h
    subst h
    exact ⟨[], cacheGrowth_refl _ _, by simp⟩
  | cons sub rest ih =>
    intro st st2 h
    rw [processSubIssues] at h
    cases hstep : processSubIssue ctx P st sub with
    | error e => rw [hstep] at h; exact absurd h (by simp)
    | ok st1 =>
      rw [hstep] at h
      obtain ⟨Δ1, hg1, hf1⟩ := processSubIssue_growth ctx P st sub st1 hdry hstep
      obtain ⟨Δ2, hg2, hf2⟩ := ih st1 st2 h
      refine ⟨Δ1 ++ Δ2, cacheGrowth_trans hg1 hg2, ?_⟩
      intro nm hnm
      rw [List.flatMap_cons, List.mem_append] at hnm
      rcases hnm with hnm | hnm
      · obtain ⟨l, hl, hpred⟩ := hf1 nm hnm
        exact ⟨l, mem_of_extends ⟨Δ2, hg2.1⟩ hl, hpred⟩
      · exact hf2 nm hnm

/-- Cache growth across one real step of the top-level loop. -/
theorem processTopIssue_growth (ctx : Ctx) (st : RunState) (n : IssueNode)
    (st2 : RunState) (hdry : ctx.dryRun = false)
    (h : processTopIssue ctx st n = .ok st2) :
    ∃ Δ, CacheGrowth st.cache st2.cache st.calls st2.calls Δ ∧
      ∀ nm ∈ n.labels.getD [] ++
        (n.subIssues.getD []).flatMap (fun sb => sb.labels.getD []),
        ∃ l ∈ st2.cache, (strLower l.name == strLower nm) = true := by
  unfold processTopIssue at h
  rw [hdry] at h
  rcases hrl : resolveLabelIds (n.labels.getD []) ctx.teamId st.cache st.remote
      st.calls false with ⟨ids, c1, r1, t1⟩
  rw [hrl] at h
  obtain ⟨Δ, hgrow, hfound⟩ := resolveLabelIds_growth _ _ _ _ _ _ _ _ _ hrl
  cases hsid : nodeStateId n ctx.workflowStates ctx.defaultStateId with
  | error e => rw [hsid] at h; exact absurd h (by simp)
  | ok sid =>
    rw [hsid] at h
    cases hfind : findExistingIssue st.snapshot n none with
    | some ex =>
      rw [hfind] at h
      by_cases hupd : ctx.update = true
      · simp only [hupd, if_true, Bool.false_eq_true, if_false] at h
        cases hup : updateIssue ex.id (topUpdateInput n ids sid) r1 with
        | error e => rw [hup] at h; exact absurd h (by simp)
        | ok pr =>
          rw [hup] at h
          rcases pr with ⟨upd, r2⟩
          obtain ⟨Δ2, hg2, hf2⟩ := processSubIssues_growth ctx upd hdry
            (n.subIssues.getD []) _ st2 h
          have hg1 : CacheGrowth st.cache c1 st.calls
              (t1 ++ [ApiCall.updateIssueCall ex.id (topUpdateInput n ids sid)]) Δ :=
            cacheGrowth_same_calls hgrow _ (fun w => countLabelCalls_update_issue _ _ w)
          refine ⟨Δ ++ Δ2, cacheGrowth_trans hg1 hg2, ?_⟩
          intro nm hnm
          rcases List.mem_append.mp hnm with hnm | hnm
          · obtain ⟨l, hl, hpred⟩ := hfound nm hnm
            exact ⟨l, mem_of_extends ⟨Δ2, hg2.1⟩ hl, hpred⟩
          · exact hf2 nm hnm
      · rw [Bool.not_eq_true] at hupd
        simp only [hupd, Bool.false_eq_true, if_false] at h
        obtain ⟨Δ2, hg2, hf2⟩ := processSubIssues_growth ctx ex hdry
          (n.subIssues.getD []) _ st2 h
        refine ⟨Δ ++ Δ2, cacheGrowth_trans hgrow hg2, ?_⟩
        intro nm hnm
        rcases List.mem_append.mp hnm with hnm | hnm
        · obtain ⟨l, hl, hpred⟩ := hfound nm hnm
          exact ⟨l, mem_of_extends ⟨Δ2, hg2.1⟩ hl, hpred⟩
        · exact hf2 nm hnm
    | none =>
      rw [hfind] at h
      simp only [Bool.false_eq_true, if_false] at h
      obtain ⟨Δ2, hg2, hf2⟩ := processSubIssues_growth ctx _ hdry
        (n.subIssues.getD []) _ st2 h
      have hg1 : CacheGrowth st.cache c1 st.calls
          (t1 ++ [ApiCall.createIssueCall
            (buildIssueInput n ctx.teamId ctx.projectId ids sid none)]) Δ :=
        cacheGrowth_same_calls hgrow _ (fun w => countLabelCalls_create_issue _ w)
      refine ⟨Δ ++ Δ2, cacheGrowth_trans hg1 hg2, ?_⟩
      intro nm hnm
      rcases List.mem_append.mp hnm with hnm | hnm
      · obtain ⟨l, hl, hpred⟩ := hfound nm hnm
        exact ⟨l, mem_of_extends ⟨Δ2, hg2.1⟩ hl, hpred⟩
      · exact hf2 nm hnm

/-- Cache growth across a real run of the top-level loop. -/
theorem processIssues_growth (ctx : Ctx) (hdry : ctx.dryRun = false) :
    ∀ (ns : List IssueNode) (st st2 : RunState),
      processIssues ctx st ns = .ok st2 →
      ∃ Δ, CacheGrowth st.cache st2.cache st.calls st2.calls Δ ∧
        ∀ nm ∈ referencedLabelNames ns,
          ∃ l ∈ st2.cache, (strLower l.name == strLower nm) = true := by
  intro ns
  induction ns with
  | nil =>
    intro st st2 h
    rw [processIssues] at h
    simp only [Except.ok.injEq] at h
    subst h
    exact ⟨[], cacheGrowth_refl _ _, by simp [referencedLabelNames]⟩
  | cons n rest ih =>
    intro st st2 h
    rw [processIssues] at h
    cases hstep : processTopIssue ctx st n with
    | error e => rw [hstep] at h; exact absurd h (by simp)
    | ok st1 =>
      rw [hstep] at h
      obtain ⟨Δ1, hg1, hf1⟩ := processTopIssue_growth ctx st n st1 hdry hstep
      obtain ⟨Δ2, hg2, hf2⟩ := ih st1 st2 h
      refine ⟨Δ1 ++ Δ2, cacheGrowth_trans hg1 hg2, ?_⟩
      intro nm hnm
      unfold referencedLabelNames at hnm
      rw [List.flatMap_cons, List.mem_append] at hnm
      rcases hnm with hnm | hnm
      · obtain ⟨l, hl, hpred⟩ := hf1 nm hnm
        exact ⟨l, mem_of_extends ⟨Δ2, hg2.1⟩ hl, hpred⟩
      · exact hf2 nm hnm

/-- Pairwise-distinct lower-case names admit at most one hit per name. -/
theorem pairwise_countNames_le_one (Δ : List Label) (w : String)
    (hpw : Δ.Pairwise (fun l l2 => ¬ strLower l.name = strLower l2.name)) :
    countNames Δ w ≤ 1 := by
  induction Δ with
  | nil => simp [countNames]
  | cons l Δ ih =>
    rw [List.pairwise_cons] at hpw
    obtain ⟨hhead, htail⟩ := hpw
    by_cases hl : (strLower l.name == w) = true
    · have hzero : countNames Δ w = 0 := by
        unfold countNames
        rw [List.length_eq_zero, List.filter_eq_nil_iff]
        intro l2 hl2 hpred
        have h1 : strLower l.name = w := eq_of_beq hl
        have h2 : strLower l2.name = w := eq_of_beq (by simpa using hpred)
        exact hhead l2 hl2 (h1.trans h2.symm)
      unfold countNames at *
      simp [List.filter_cons, hl, hzero]
    · rw [Bool.not_eq_true] at hl
      unfold countNames at *
      simp only [List.filter_cons, hl]
      exact ih htail

/-- Claim C6: within one real run, a label name that is referenced anywhere
in the visited tree and is absent from the team label set is created exactly
once, ends up in the session cache, and every reference resolves to the
first case-insensitive hit of that name in the final cache (so all
referencing nodes carry the same id).  Scenario B is included concretely:
one `createLabel("bug")` call and two createIssue calls carrying the same
label id. -/
theorem c6_label_idempotence :
    (∀ (data : ImportData) (opts : Options) (r : Remote) (res : RunState) (team : Team)
       (nm : String),
      opts.dryRun = false →
      importCommand data opts r = .ok res →
      getTeamByName data.team r = some team →
      nm ∈ referencedLabelNames data.issues →
      (∀ l ∈ getTeamLabels team.id r, ¬ strLower l.name = strLower nm) →
      countLabelCalls res.calls (strLower nm) = 1 ∧
      ∃ l ∈ res.cache, strLower l.name = strLower nm) ∧
    (∀ (names : List String) (tid : String) (c : List Label) (r : Remote)
       (t : List ApiCall) (ids : List String) (c2 : List Label) (r2 : Remote)
       (t2 : List ApiCall),
      resolveLabelIds names tid c r t false = (ids, c2, r2, t2) →
      ids = names.map (firstLabelId c2) ∧
      ∀ nm ∈ names, ∃ l ∈ c2, (strLower l.name == strLower nm) = true) ∧
    (∀ (c c2 : List Label) (nm : String) (l : Label), Extends c c2 →
      c.find? (fun l2 => strLower l2.name == strLower nm) = some l →
      firstLabelId c2 nm = l.id) ∧
    ((importCommand docB ffOpts baseRemote).toOption.map fun res =>
      (countLabelCalls res.calls (strLower "bug"),
       (res.calls.filter (fun c => match c with
         | ApiCall.createIssueCall i => i.labelIds == some ["label-1"]
         | _ => false)).length,
       countCreateIssueCalls res.calls)) = some (1, 2, 2) := by
  refine ⟨?_, ?_, ?_, by decide⟩
  · intro data opts r res team nm hdry hrun hteam href habsent
    unfold importCommand at hrun
    cases hv : validateImportData data with
    | error e => rw [hv] at hrun; exact absurd hrun (by simp)
    | ok u =>
      rw [hv, hteam] at hrun
      dsimp only at hrun
      cases hd : (if strTruthy data.defaultStatus = true then
          resolveStatusId data.defaultStatus (getWorkflowStates team.id r)
        else .ok none) with
      | error e => rw [hd] at hrun; exact absurd hrun (by simp)
      | ok dsid =>
        rw [hd] at hrun
        obtain ⟨Δ, ⟨hc, hn, ha, hpw⟩, hfound⟩ := processIssues_growth
          { teamId := team.id,
            projectId := (if strTruthy data.project = true then
                getProjectByName (data.project.getD "") r
              else none).map Project.id,
            workflowStates := getWorkflowStates team.id r,
            defaultStateId := dsid, dryRun := opts.dryRun, update := opts.update }
          hdry data.issues _ res hrun
        obtain ⟨l, hl, hpred⟩ := hfound nm href
        have hlname : strLower l.name = strLower nm := eq_of_beq hpred
        have hlΔ : l ∈ Δ := by
          rw [hc] at hl
          rcases List.mem_append.mp hl with hl | hl
          · exact absurd hlname (habsent l hl)
          · exact hl
        have hone : 1 ≤ countNames Δ (strLower nm) := by
          unfold countNames
          have : l ∈ Δ.filter (fun l2 => strLower l2.name == strLower nm) :=
            List.mem_filter.mpr ⟨hlΔ, by simp [hlname]⟩
          calc 1 ≤ 1 := le_refl 1
          _ ≤ (Δ.filter (fun l2 => strLower l2.name == strLower nm)).length :=
            List.length_pos.mpr (List.ne_nil_of_mem this)
        have hle := pairwise_countNames_le_one Δ (strLower nm) hpw
        have hcount : countNames Δ (strLower nm) = 1 := le_antisymm hle hone
        refine ⟨?_, ⟨l, hl, hlname⟩⟩
        have hz : countLabelCalls ([] : List ApiCall) (strLower nm) = 0 := rfl
        have := hn (strLower nm)
        simp only [hz] at this
        rw [this, hcount]
  · intro names tid c r t ids c2 r2 t2 h
    obtain ⟨Δ, hc, ht, hids, hlab, hiss, htm, hpr, hst, hnx, hfound, habs, hpw, hmm⟩ :=
      resolveLabelIds_real names tid c r t ids c2 r2 t2 h
    exact ⟨hids, hfound⟩
  · intro c c2 nm l hext hfind
    unfold firstLabelId
    rw [find?_extends _ c c2 l hext hfind]
    rfl

/-- Witness for C6: in scenario B the referenced name `bug` is absent from
the empty team label set and is created exactly once. -/
theorem c6_label_idempotence_witness :
    countLabelCalls
      (((importCommand docB ffOpts baseRemote).toOption.map RunState.calls).getD [])
      (strLower "bug") = 1 := by
  obtain ⟨res, hrun⟩ : ∃ res, importCommand docB ffOpts baseRemote = .ok res := by
    cases h : importCommand docB ffOpts baseRemote with
    | ok s => exact ⟨s, rfl⟩
    | error e =>
      have hnone : (importCommand docB ffOpts baseRemote).toOption = none := by
        rw [h]; rfl
      have hsome : ¬ (importCommand docB ffOpts baseRemote).toOption = none := by decide
      exact absurd hnone hsome
  have hmain := (c6_label_idempotence.1 docB ffOpts baseRemote res baseTeam "bug"
    rfl hrun (by decide) (by decide) (by decide)).1
  rw [hrun]
  simpa using hmain

/-! ## Claim C2 -/

theorem uuid_ne_empty (x : String) : ¬ ("uuid-" ++ x) = "" := by
  intro h
  have hd := congrArg String.data h
  rw [String.data_append] at hd
  simp at hd

/-- Matches survive extending the snapshot: the first hit never changes. -/
theorem findExistingIssue_extends (es es2 : List Issue) (n : IssueNode)
    (p : Option String) (i : Issue) (hext : Extends es es2)
    (h : findExistingIssue es n p = some i) : findExistingIssue es2 n p = some i := by
  unfold findExistingIssue at h ⊢
  by_cases hid : strTruthy n.identifier = true
  · rw [hid, if_pos rfl] at h ⊢
    exact find?_extends _ es es2 i hext h
  · rw [Bool.not_eq_true] at hid
    rw [hid] at h ⊢
    simp only [Bool.false_eq_true, if_false] at h ⊢
    exact find?_extends _ es es2 i hext h

/-- A freshly pushed record matching the node is found once the original
snapshot (which had no hit) is extended by it. -/
theorem findExistingIssue_push (es es2 : List Issue) (n : IssueNode)
    (p : Option String) (C : Issue)
    (hid : strTruthy n.identifier = false)
    (hnone : findExistingIssue es n p = none)
    (htitle : strLower C.title = strLower n.title)
    (hparent : if strTruthy p = true then C.parent = p else C.parent = none)
    (hext : Extends (es ++ [C]) es2) :
    findExistingIssue es2 n p = some C := by
  have hpred : (strLower C.title == strLower n.title &&
      (if strTruthy p = true then C.parent == p else C.parent == none)) = true := by
    rw [Bool.and_eq_true]
    constructor
    · simp [htitle]
    · by_cases hp : strTruthy p = true
      · rw [hp, if_pos rfl] at hparent ⊢
        simp [hparent]
      · rw [Bool.not_eq_true] at hp
        rw [hp] at hparent ⊢
        simp only [Bool.false_eq_true, if_false] at hparent ⊢
        simp [hparent]
  unfold findExistingIssue at hnone ⊢
  rw [hid] at hnone ⊢
  simp only [Bool.false_eq_true, if_false] at hnone ⊢
  refine find?_extends _ (es ++ [C]) es2 C hext ?_
  rw [find?_append_none _ es [C] hnone]
  exact List.find?_cons_of_pos _ hpred

/-- Monotonicity of one real non-update step of the sub-issue loop:
snapshot and cache only grow, and snapshot ids stay nonempty. -/
theorem processSubIssue_mono (ctx : Ctx) (P : Issue) (st : RunState) (sub : IssueNode)
    (st2 : RunState) (hdry : ctx.dryRun = false) (hupd : ctx.update = false)
    (h : processSubIssue ctx P st sub = .ok st2) :
    Extends st.snapshot st2.snapshot ∧ Extends st.cache st2.cache ∧
    ((∀ i ∈ st.snapshot, ¬ i.id = "") → (∀ i ∈ st2.snapshot, ¬ i.id = "")) := by
  unfold processSubIssue at h
  rw [hdry, hupd] at h
  rcases hrl : resolveLabelIds (sub.labels.getD []) ctx.teamId st.cache st.remote
      st.calls false with ⟨ids, c1, r1, t1⟩
  rw [hrl] at h
  obtain ⟨Δ, hc, _⟩ := resolveLabelIds_real _ _ _ _ _ _ _ _ _ hrl
  cases hsid : nodeStateId sub ctx.workflowStates ctx.defaultStateId with
  | error e => rw [hsid] at h; exact absurd h (by simp)
  | ok sid =>
    rw [hsid] at h
    cases hfind : findExistingIssue st.snapshot sub (some P.id) with
    | some ex =>
      rw [hfind] at h
      simp only [Bool.false_eq_true, if_false, Except.ok.injEq] at h
      subst h
      exact ⟨extends_refl _, ⟨Δ, hc⟩, fun hne => hne⟩
    | none =>
      rw [hfind] at h
      simp only [Bool.false_eq_true, if_false, Except.ok.injEq] at h
      subst h
      refine ⟨extends_append _ _, ⟨Δ, hc⟩, ?_⟩
      intro hne i hi
      rcases List.mem_append.mp hi with hi | hi
      · exact hne i hi
      · rw [List.mem_singleton] at hi
        subst hi
        exact uuid_ne_empty _

/-- Monotonicity across the sub-issue loop. -/
theorem processSubIssues_mono (ctx : Ctx) (P : Issue) (hdry : ctx.dryRun = false)
    (hupd : ctx.update = false) :
    ∀ (subs : List IssueNode) (st st2 : RunState),
      processSubIssues ctx P st subs = .ok st2 →
      Extends st.snapshot st2.snapshot ∧ Extends st.cache st2.cache ∧
      ((∀ i ∈ st.snapshot, ¬ i.id = "") → (∀ i ∈ st2.snapshot, ¬ i.id = "")) := by
  intro subs
  induction subs with
  | nil =>
    intro st st2 h
    rw [processSubIssues] at h
    simp only [Except.ok.injEq] at h
    subst h
    exact ⟨extends_refl _, extends_refl _, fun hne => hne⟩
  | cons sub rest ih =>
    intro st st2 h
    rw [processSubIssues] at h
    cases hstep : processSubIssue ctx P st sub with
    | error e => rw [hstep] at h; exact absurd h (by simp)
    | ok st1 =>
      rw [hstep] at h
      obtain ⟨h1, h2, h3⟩ := processSubIssue_mono ctx P st sub st1 hdry hupd hstep
      obtain ⟨g1, g2, g3⟩ := ih st1 st2 h
      exact ⟨extends_trans h1 g1, extends_trans h2 g2, fun hne => g3 (h3 hne)⟩

/-- Monotonicity across one real non-update step of the top-level loop. -/
theorem processTopIssue_mono (ctx : Ctx) (st : RunState) (n : IssueNode)
    (st2 : RunState) (hdry : ctx.dryRun = false) (hupd : ctx.update = false)
    (h : processTopIssue ctx st n = .ok st2) :
    Extends st.snapshot st2.snapshot ∧ Extends st.cache st2.cache ∧
    ((∀ i ∈ st.snapshot, ¬ i.id = "") → (∀ i ∈ st2.snapshot, ¬ i.id = "")) := by
  unfold processTopIssue at h
  rw [hdry, hupd] at h
  rcases hrl : resolveLabelIds (n.labels.getD []) ctx.teamId st.cache st.remote
      st.calls false with ⟨ids, c1, r1, t1⟩
  rw [hrl] at h
  obtain ⟨Δ, hc, _⟩ := resolveLabelIds_real _ _ _ _ _ _ _ _ _ hrl
  cases hsid : nodeStateId n ctx.workflowStates ctx.defaultStateId with
  | error e => rw [hsid] at h; exact absurd h (by simp)
  | ok sid =>
    rw [hsid] at h
    cases hfind : findExistingIssue st.snapshot n none with
    | some ex =>
      rw [hfind] at h
      simp only [Bool.false_eq_true, if_false] at h
      obtain ⟨g1, g2, g3⟩ := processSubIssues_mono ctx ex hdry hupd
        (n.subIssues.getD []) _ st2 h
      refine ⟨g1, extends_trans ⟨Δ, hc⟩ g2, fun hne => g3 hne⟩
    | none =>
      rw [hfind] at h
      simp only [Bool.false_eq_true, if_false] at h
      obtain ⟨g1, g2, g3⟩ := processSubIssues_mono ctx _ hdry hupd
        (n.subIssues.getD []) _ st2 h
      refine ⟨extends_trans (extends_append _ _) g1,
        extends_trans ⟨Δ, hc⟩ g2, ?_⟩
      intro hne
      refine g3 ?_
      intro i hi
      rcases List.mem_append.mp hi with hi | hi
      · exact hne i hi
      · rw [List.mem_singleton] at hi
        subst hi
        exact uuid_ne_empty _

/-- Monotonicity across the whole top-level loop. -/
theorem processIssues_mono (ctx : Ctx) (hdry : ctx.dryRun = false)
    (hupd : ctx.update = false) :
    ∀ (ns : List IssueNode) (st st2 : RunState),
      processIssues ctx st ns = .ok st2 →
      Extends st.snapshot st2.snapshot ∧ Extends st.cache st2.cache ∧
      ((∀ i ∈ st.snapshot, ¬ i.id = "") → (∀ i ∈ st2.snapshot, ¬ i.id = "")) := by
  intro ns
  induction ns with
  | nil =>
    intro st st2 h
    rw [processIssues] at h
    simp only [Except.ok.injEq] at h
    subst h
    exact ⟨extends_refl _, extends_refl _, fun hne => hne⟩
  | cons n rest ih =>
    intro st st2 h
    rw [processIssues] at h
    cases hstep : processTopIssue ctx st n with
    | error e => rw [hstep] at h; exact absurd h (by simp)
    | ok st1 =>
      rw [hstep] at h
      obtain ⟨h1, h2, h3⟩ := processTopIssue_mono ctx st n st1 hdry hupd hstep
      obtain ⟨g1, g2, g3⟩ := ih st1 st2 h
      exact ⟨extends_trans h1 g1, extends_trans h2 g2, fun hne => g3 (h3 hne)⟩

/-- Replaying one sub-issue node of a committed real non-update run against
any state whose snapshot and cache extend the post-node state resolves the
node to a skip and changes nothing but the skipped aggregate. -/
theorem replay_sub (ctx : Ctx) (P : Issue) (hdry : ctx.dryRun = false)
    (hupd : ctx.update = false) (hP : (P.id == "") = false)
    (st st1 : RunState) (sub : IssueNode)
    (hrun : processSubIssue ctx P st sub = .ok st1)
    (hid : strTruthy sub.identifier = true →
      ∃ i ∈ st.snapshot, strLower i.identifier = strLower (sub.identifier.getD ""))
    (σ : RunState)
    (hsnap : Extends st1.snapshot σ.snapshot)
    (hcache : Extends st1.cache σ.cache) :
    ∃ m, processSubIssue ctx P σ sub = .ok { σ with skipped := σ.skipped ++ [m] } := by
  unfold processSubIssue at hrun
  rw [hdry, hupd] at hrun
  rcases hrl : resolveLabelIds (sub.labels.getD []) ctx.teamId st.cache st.remote
      st.calls false with ⟨ids, c1, r1, t1⟩
  rw [hrl] at hrun
  obtain ⟨Δ, hc, ht, hids, hlab, hiss, htm, hpr, hst, hnx, hfound, _⟩ :=
    resolveLabelIds_real _ _ _ _ _ _ _ _ _ hrl
  cases hsid : nodeStateId sub ctx.workflowStates ctx.defaultStateId with
  | error e => rw [hsid] at hrun; exact absurd hrun (by simp)
  | ok sid =>
    rw [hsid] at hrun
    cases hfind : findExistingIssue st.snapshot sub (some P.id) with
    | some ex =>
      rw [hfind] at hrun
      simp only [Bool.false_eq_true, if_false, Except.ok.injEq] at hrun
      subst hrun
      have hfoundσ : ∀ nm ∈ sub.labels.getD [],
          ∃ l ∈ σ.cache, (strLower l.name == strLower nm) = true := by
        intro nm hnm
        obtain ⟨l, hl, hp2⟩ := hfound nm hnm
        exact ⟨l, mem_of_extends hcache hl, hp2⟩
      obtain ⟨ids2, hrl2⟩ := resolveLabelIds_stable (sub.labels.getD []) ctx.teamId
        σ.cache σ.remote σ.calls false hfoundσ
      have hfind2 : findExistingIssue σ.snapshot sub (some P.id) = some ex :=
        findExistingIssue_extends st.snapshot σ.snapshot sub (some P.id) ex hsnap hfind
      refine ⟨ex, ?_⟩
      unfold processSubIssue
      rw [hdry, hupd, hrl2, hsid, hfind2]
      simp only [Bool.false_eq_true, if_false]
    | none =>
      rw [hfind] at hrun
      simp only [Bool.false_eq_true, if_false, Except.ok.injEq] at hrun
      subst hrun
      have hident : strTruthy sub.identifier = false := by
        by_cases hi : strTruthy sub.identifier = true
        · obtain ⟨i, hi2, heq⟩ := hid hi
          exfalso
          unfold findExistingIssue at hfind
          rw [hi, if_pos rfl] at hfind
          have hni := List.find?_eq_none.mp hfind i hi2
          exact hni (by simp [heq])
        · rw [Bool.not_eq_true] at hi
          exact hi
      have hptruthy : strTruthy (some P.id) = true := by
        simp [strTruthy, hP]
      have hfoundσ : ∀ nm ∈ sub.labels.getD [],
          ∃ l ∈ σ.cache, (strLower l.name == strLower nm) = true := by
        intro nm hnm
        obtain ⟨l, hl, hp2⟩ := hfound nm hnm
        exact ⟨l, mem_of_extends hcache hl, hp2⟩
      obtain ⟨ids2, hrl2⟩ := resolveLabelIds_stable (sub.labels.getD []) ctx.teamId
        σ.cache σ.remote σ.calls false hfoundσ
      have hfind2 : findExistingIssue σ.snapshot sub (some P.id) =
          some { (createIssue (buildIssueInput sub ctx.teamId ctx.projectId ids sid
            (some P.id)) r1).1 with parent := some P.id } := by
        refine findExistingIssue_push st.snapshot σ.snapshot sub (some P.id) _
          hident hfind rfl ?_ hsnap
        rw [hptruthy, if_pos rfl]
      refine ⟨{ (createIssue (buildIssueInput sub ctx.teamId ctx.projectId ids sid
        (some P.id)) r1).1 with parent := some P.id }, ?_⟩
      unfold processSubIssue
      rw [hdry, hupd, hrl2, hsid, hfind2]
      simp only [Bool.false_eq_true, if_false]

/-- Replaying the sub-issue loop of a committed real non-update run: every
sub-issue skips, in order. -/
theorem replay_subs (ctx : Ctx) (P : Issue) (hdry : ctx.dryRun = false)
    (hupd : ctx.update = false) (hP : (P.id == "") = false) :
    ∀ (subs : List IssueNode) (st st1 : RunState),
      processSubIssues ctx P st subs = .ok st1 →
      (∀ sb ∈ subs, strTruthy sb.identifier = true →
        ∃ i ∈ st.snapshot, strLower i.identifier = strLower (sb.identifier.getD "")) →
      ∀ σ : RunState, Extends st1.snapshot σ.snapshot → Extends st1.cache σ.cache →
      ∃ Δm, processSubIssues ctx P σ subs = .ok { σ with skipped := σ.skipped ++ Δm } ∧
        Δm.length = subs.length := by
  intro subs
  induction subs with
  | nil =>
    intro st st1 h hid σ hsnap hcache
    refine ⟨[], ?_, rfl⟩
    rw [processSubIssues]
    simp
  | cons sub rest ih =>
    intro st st1 h hid σ hsnap hcache
    rw [processSubIssues] at h
    cases hstep : processSubIssue ctx P st sub with
    | error e => rw [hstep] at h; exact absurd h (by simp)
    | ok stA =>
      rw [hstep] at h
      obtain ⟨m1, hm1⟩ := replay_sub ctx P hdry hupd hP st stA sub hstep
        (hid sub (List.mem_cons_self _ _)) σ
        (extends_trans (processSubIssues_mono ctx P hdry hupd rest stA st1 h).1 hsnap)
        (extends_trans (processSubIssues_mono ctx P hdry hupd rest stA st1 h).2.1 hcache)
      obtain ⟨hsnapA, hcacheA⟩ :
          Extends st.snapshot stA.snapshot ∧ Extends st.cache stA.cache := by
        obtain ⟨a, b, _⟩ := processSubIssue_mono ctx P st sub stA hdry hupd hstep
        exact ⟨a, b⟩
      obtain ⟨Δm2, hm2, hlen2⟩ := ih stA st1 h
        (fun sb hsb hi => by
          obtain ⟨i, hi2, heq⟩ := hid sb (List.mem_cons_of_mem _ hsb) hi
          exact ⟨i, mem_of_extends hsnapA hi2, heq⟩)
        { σ with skipped := σ.skipped ++ [m1] } hsnap hcache
      refine ⟨m1 :: Δm2, ?_, by simp [hlen2]⟩
      rw [processSubIssues, hm1]
      dsimp only
      refine hm2.trans ?_
      simp [List.append_assoc]

/-- Replaying one top-level node of a committed real non-update run: the
node and all its sub-issues skip, with the same parent binding. -/
theorem replay_top (ctx : Ctx) (hdry : ctx.dryRun = false) (hupd : ctx.update = false)
    (st st1 : RunState) (n : IssueNode)
    (hrun : processTopIssue ctx st n = .ok st1)
    (hid : ∀ m ∈ n :: n.subIssues.getD [], strTruthy m.identifier = true →
      ∃ i ∈ st.snapshot, strLower i.identifier = strLower (m.identifier.getD ""))
    (hne : ∀ i ∈ st.snapshot, ¬ i.id = "")
    (σ : RunState)
    (hsnap : Extends st1.snapshot σ.snapshot)
    (hcache : Extends st1.cache σ.cache) :
    ∃ Δm, processTopIssue ctx σ n = .ok { σ with skipped := σ.skipped ++ Δm } ∧
      Δm.length = countVisitedNode n := by
  unfold processTopIssue at hrun
  rw [hdry, hupd] at hrun
  rcases hrl : resolveLabelIds (n.labels.getD []) ctx.teamId st.cache st.remote
      st.calls false with ⟨ids, c1, r1, t1⟩
  rw [hrl] at hrun
  obtain ⟨Δ, hc, ht, hids, hlab, hiss, htm, hpr, hst, hnx, hfound, _⟩ :=
    resolveLabelIds_real _ _ _ _ _ _ _ _ _ hrl
  cases hsid : nodeStateId n ctx.workflowStates ctx.defaultStateId with
  | error e => rw [hsid] at hrun; exact absurd hrun (by simp)
  | ok sid =>
    rw [hsid] at hrun
    cases hfind : findExistingIssue st.snapshot n none with
    | some ex =>
      rw [hfind] at hrun
      simp only [Bool.false_eq_true, if_false] at hrun
      obtain ⟨hsnapR, hcacheR, _⟩ := processSubIssues_mono ctx ex hdry hupd
        (n.subIssues.getD []) _ st1 hrun
      have hfoundσ : ∀ nm ∈ n.labels.getD [],
          ∃ l ∈ σ.cache, (strLower l.name == strLower nm) = true := by
        intro nm hnm
        obtain ⟨l, hl, hp2⟩ := hfound nm hnm
        exact ⟨l, mem_of_extends (extends_trans hcacheR hcache) hl, hp2⟩
      obtain ⟨ids2, hrl2⟩ := resolveLabelIds_stable (n.labels.getD []) ctx.teamId
        σ.cache σ.remote σ.calls false hfoundσ
      have hfind2 : findExistingIssue σ.snapshot n none = some ex :=
        findExistingIssue_extends st.snapshot σ.snapshot n none ex
          (extends_trans hsnapR hsnap) hfind
      have hexne : (ex.id == "") = false := by
        have hmem : ex ∈ st.snapshot := by
          have hx := hfind
          unfold findExistingIssue at hx
          by_cases hi : strTruthy n.identifier = true
          · rw [hi, if_pos rfl] at hx
            exact List.mem_of_find?_eq_some hx
          · rw [Bool.not_eq_true] at hi
            rw [hi] at hx
            simp only [Bool.false_eq_true, if_false] at hx
            exact List.mem_of_find?_eq_some hx
        have := hne ex hmem
        simpa using this
      obtain ⟨Δm2, hm2, hlen2⟩ := replay_subs ctx ex hdry hupd hexne
        (n.subIssues.getD []) _ st1 hrun
        (fun sb hsb hi => by
          obtain ⟨i, hi2, heq⟩ := hid sb (List.mem_cons_of_mem _ hsb) hi
          exact ⟨i, hi2, heq⟩)
        { σ with skipped := σ.skipped ++ [ex] } hsnap hcache
      refine ⟨ex :: Δm2, ?_, by simp only [List.length_cons, hlen2, countVisitedNode]; omega⟩
      unfold processTopIssue
      rw [hdry, hupd, hrl2, hsid, hfind2]
      simp only [Bool.false_eq_true, if_false]
      refine hm2.trans ?_
      simp [List.append_assoc]
    | none =>
      rw [hfind] at hrun
      simp only [Bool.false_eq_true, if_false] at hrun
      have hident : strTruthy n.identifier = false := by
        by_cases hi : strTruthy n.identifier = true
        · obtain ⟨i, hi2, heq⟩ := hid n (List.mem_cons_self _ _) hi
          exfalso
          unfold findExistingIssue at hfind
          rw [hi, if_pos rfl] at hfind
          have hni := List.find?_eq_none.mp hfind i hi2
          exact hni (by simp [heq])
        · rw [Bool.not_eq_true] at hi
          exact hi
      obtain ⟨hsnapR, hcacheR, _⟩ := processSubIssues_mono ctx _ hdry hupd
        (n.subIssues.getD []) _ st1 hrun
      have hfoundσ : ∀ nm ∈ n.labels.getD [],
          ∃ l ∈ σ.cache, (strLower l.name == strLower nm) = true := by
        intro nm hnm
        obtain ⟨l, hl, hp2⟩ := hfound nm hnm
        exact ⟨l, mem_of_extends (extends_trans hcacheR hcache) hl, hp2⟩
      obtain ⟨ids2, hrl2⟩ := resolveLabelIds_stable (n.labels.getD []) ctx.teamId
        σ.cache σ.remote σ.calls false hfoundσ
      have hfind2 : findExistingIssue σ.snapshot n none =
          some (createIssue (buildIssueInput n ctx.teamId ctx.projectId ids sid none)
            r1).1 := by
        refine findExistingIssue_push st.snapshot σ.snapshot n none _
          hident hfind rfl (by simp [strTruthy, createIssue]) ?_
        exact extends_trans hsnapR hsnap
      obtain ⟨Δm2, hm2, hlen2⟩ := replay_subs ctx
        (createIssue (buildIssueInput n ctx.teamId ctx.projectId ids sid none) r1).1
        hdry hupd (by simpa using uuid_ne_empty (toString r1.nextIssueId))
        (n.subIssues.getD []) _ st1 hrun
        (fun sb hsb hi => by
          obtain ⟨i, hi2, heq⟩ := hid sb (List.mem_cons_of_mem _ hsb) hi
          exact ⟨i, List.mem_append_left _ hi2, heq⟩)
        { σ with skipped := σ.skipped ++
            [(createIssue (buildIssueInput n ctx.teamId ctx.projectId ids sid none) r1).1] }
        hsnap hcache
      refine ⟨(createIssue (buildIssueInput n ctx.teamId ctx.projectId ids sid none)
        r1).1 :: Δm2, ?_, by simp only [List.length_cons, hlen2, countVisitedNode]; omega⟩
      unfold processTopIssue
      rw [hdry, hupd, hrl2, hsid, hfind2]
      simp only [Bool.false_eq_true, if_false]
      refine hm2.trans ?_
      simp [List.append_assoc]

/-- Replaying the whole top-level loop of a committed real non-update run:
every node skips. -/
theorem replay_issues (ctx : Ctx) (hdry : ctx.dryRun = false)
    (hupd : ctx.update = false) :
    ∀ (ns : List IssueNode) (st st1 : RunState),
      processIssues ctx st ns = .ok st1 →
      (∀ m ∈ visitedNodes ns, strTruthy m.identifier = true →
        ∃ i ∈ st.snapshot, strLower i.identifier = strLower (m.identifier.getD "")) →
      (∀ i ∈ st.snapshot, ¬ i.id = "") →
      ∀ σ : RunState, Extends st1.snapshot σ.snapshot → Extends st1.cache σ.cache →
      ∃ Δm, processIssues ctx σ ns = .ok { σ with skipped := σ.skipped ++ Δm } ∧
        Δm.length = countVisited ns := by
  intro ns
  induction ns with
  | nil =>
    intro st st1 h hid hne σ hsnap hcache
    refine ⟨[], ?_, by simp [countVisited]⟩
    rw [processIssues]
    simp
  | cons n rest ih =>
    intro st st1 h hid hne σ hsnap hcache
    rw [processIssues] at h
    cases hstep : processTopIssue ctx st n with
    | error e => rw [hstep] at h; exact absurd h (by simp)
    | ok stA =>
      rw [hstep] at h
      obtain ⟨hsnapA, hcacheA, hneA⟩ := processTopIssue_mono ctx st n stA hdry hupd hstep
      obtain ⟨Δm1, hm1, hlen1⟩ := replay_top ctx hdry hupd st stA n hstep
        (fun m hm hi => hid m (by
          unfold visitedNodes
          rw [List.flatMap_cons, List.mem_append]
          exact Or.inl hm) hi)
        hne σ
        (extends_trans (processIssues_mono ctx hdry hupd rest stA st1 h).1 hsnap)
        (extends_trans (processIssues_mono ctx hdry hupd rest stA st1 h).2.1 hcache)
      obtain ⟨Δm2, hm2, hlen2⟩ := ih stA st1 h
        (fun m hm hi => by
          obtain ⟨i, hi2, heq⟩ := hid m (by
            unfold visitedNodes at hm ⊢
            rw [List.flatMap_cons, List.mem_append]
            exact Or.inr hm) hi
          exact ⟨i, mem_of_extends hsnapA hi2, heq⟩)
        (hneA hne)
        { σ with skipped := σ.skipped ++ Δm1 } hsnap hcache
      refine ⟨Δm1 ++ Δm2, ?_, by
        rw [List.length_append, hlen1, hlen2]
        unfold countVisited
        simp⟩
      rw [processIssues, hm1]
      dsimp only
      refine hm2.trans ?_
      simp [List.append_assoc]

theorem getTeamLabels_append (tid : String) (r r2 : Remote) (Δ : List Label)
    (h : r2.labels = r.labels ++ Δ.map
      (fun l => ({ id := l.id, name := l.name, team := some tid } : RemoteLabel))) :
    getTeamLabels tid r2 = getTeamLabels tid r ++ Δ := by
  unfold getTeamLabels
  rw [h, List.filter_append, List.map_append]
  clear h
  congr 1
  induction Δ with
  | nil => rfl
  | cons l Δ ih =>
    simp only [List.map_cons, List.filter_cons]
    have hpred : ((some tid : Option String).isNone || (some tid == some tid)) = true := by
      simp
    simp only [hpred, if_pos]
    rw [List.map_cons]
    exact congrArg (List.cons l) ih

theorem getTeamByName_congr (nm : String) (r r2 : Remote) (h : r2.teams = r.teams) :
    getTeamByName nm r2 = getTeamByName nm r := by
  unfold getTeamByName
  rw [h]

theorem getProjectByName_congr (nm : String) (r r2 : Remote)
    (h : r2.projects = r.projects) :
    getProjectByName nm r2 = getProjectByName nm r := by
  unfold getProjectByName
  rw [h]

theorem getWorkflowStates_congr (tid : String) (r r2 : Remote)
    (h : r2.states = r.states) :
    getWorkflowStates tid r2 = getWorkflowStates tid r := by
  unfold getWorkflowStates
  rw [h]

/-- Field-level specification of `createIssue`. -/
theorem createIssue_spec (input : IssueInput) (r : Remote) :
    (createIssue input r).1.id = "uuid-" ++ toString r.nextIssueId ∧
    (createIssue input r).1.title = input.title ∧
    (createIssue input r).1.parent = none ∧
    (createIssue input r).2.issues = r.issues ++
      [{ id := (createIssue input r).1.id,
         identifier := (createIssue input r).1.identifier,
         title := input.title, teamId := input.teamId, parent := input.parentId }] ∧
    (createIssue input r).2.teams = r.teams ∧
    (createIssue input r).2.projects = r.projects ∧
    (createIssue input r).2.states = r.states ∧
    (createIssue input r).2.labels = r.labels :=
  ⟨rfl, rfl, rfl, rfl, rfl, rfl, rfl, rfl⟩

/-- Snapshot ids are nonempty under the snapshot invariant. -/
theorem snapInv_snapshot_ids (tid : String) (r0 : Remote) (st : RunState)
    (hinv : SnapInv tid r0 st) : ∀ i ∈ st.snapshot, ¬ i.id = "" := by
  intro i hi
  rw [hinv.1] at hi
  obtain ⟨ri, hri, rfl⟩ := List.mem_map.mp hi
  exact hinv.2.2.2.2.2.2 ri (List.mem_of_mem_filter hri)

/-- The snapshot invariant survives one real non-update step of the
sub-issue loop, and at most one issue is created. -/
theorem snapInv_sub (ctx : Ctx) (P : Issue) (st st2 : RunState) (sub : IssueNode)
    (r0 : Remote) (hdry : ctx.dryRun = false) (hupd : ctx.update = false)
    (hP : (P.id == "") = false)
    (hinv : SnapInv ctx.teamId r0 st)
    (h : processSubIssue ctx P st sub = .ok st2) :
    SnapInv ctx.teamId r0 st2 ∧ st2.created.length ≤ st.created.length + 1 := by
  obtain ⟨hsnap, hcache, htm0, hpr0, hst0, hlen0, hne0⟩ := hinv
  unfold processSubIssue at h
  rw [hdry, hupd] at h
  rcases hrl : resolveLabelIds (sub.labels.getD []) ctx.teamId st.cache st.remote
      st.calls false with ⟨ids, c1, r1, t1⟩
  rw [hrl] at h
  obtain ⟨Δ, hc, ht, hids, hlab, hiss, htm, hpr, hst, hnx, hfound, _⟩ :=
    resolveLabelIds_real _ _ _ _ _ _ _ _ _ hrl
  have hcache1 : c1 = getTeamLabels ctx.teamId r1 := by
    rw [hc, hcache, getTeamLabels_append ctx.teamId st.remote r1 Δ hlab]
  cases hsid : nodeStateId sub ctx.workflowStates ctx.defaultStateId with
  | error e => rw [hsid] at h; exact absurd h (by simp)
  | ok sid =>
    rw [hsid] at h
    cases hfind : findExistingIssue st.snapshot sub (some P.id) with
    | some ex =>
      rw [hfind] at h
      simp only [Bool.false_eq_true, if_false, Except.ok.injEq] at h
      subst h
      refine ⟨⟨by rw [hiss]; exact hsnap, hcache1, htm.trans htm0, hpr.trans hpr0,
        hst.trans hst0, by rw [hiss]; exact hlen0, by rw [hiss]; exact hne0⟩, by simp⟩
    | none =>
      rw [hfind] at h
      simp only [Bool.false_eq_true, if_false, Except.ok.injEq] at h
      subst h
      have hparent : (buildIssueInput sub ctx.teamId ctx.projectId ids sid
          (some P.id)).parentId = some P.id := by
        simp [buildIssueInput, strTruthy, hP]
      obtain ⟨hciid, hcititle, hciparent, hciiss, hcitm, hcipr, hcist, hcilab⟩ :=
        createIssue_spec (buildIssueInput sub ctx.teamId ctx.projectId ids sid
          (some P.id)) r1
      refine ⟨⟨?_, ?_, ?_, ?_, ?_, ?_, ?_⟩, by simp⟩
      · show st.snapshot ++ _ = _
        rw [hciiss, List.filter_append, List.map_append, hiss, ← hsnap]
        congr 1
        simp [RemoteIssue.toSnap, hparent, buildIssueInput, createIssue, strTruthy, hP]
      · rw [hcache1]
        unfold getTeamLabels
        rw [hcilab]
      · rw [hcitm, htm, htm0]
      · rw [hcipr, hpr, hpr0]
      · rw [hcist, hst, hst0]
      · rw [hciiss, List.length_append, hiss, List.length_append, hlen0]
        simp only [List.length_append, List.length_cons, List.length_nil]
        omega
      · rw [hciiss]
        intro i hi
        rcases List.mem_append.mp hi with hi | hi
        · rw [hiss] at hi
          exact hne0 i hi
        · rw [List.mem_singleton] at hi
          subst hi
          simp only [hciid]
          exact uuid_ne_empty _

/-- The snapshot invariant survives the sub-issue loop. -/
theorem snapInv_subs (ctx : Ctx) (P : Issue) (r0 : Remote)
    (hdry : ctx.dryRun = false) (hupd : ctx.update = false)
    (hP : (P.id == "") = false) :
    ∀ (subs : List IssueNode) (st st2 : RunState),
      SnapInv ctx.teamId r0 st →
      processSubIssues ctx P st subs = .ok st2 →
      SnapInv ctx.teamId r0 st2 ∧
      st2.created.length ≤ st.created.length + subs.length := by
  intro subs
  induction subs with
  | nil =>
    intro st st2 hinv h
    rw [processSubIssues] at h
    simp only [Except.ok.injEq] at h
    subst h
    exact ⟨hinv, by simp⟩
  | cons sub rest ih =>
    intro st st2 hinv h
    rw [processSubIssues] at h
    cases hstep : processSubIssue ctx P st sub with
    | error e => rw [hstep] at h; exact absurd h (by simp)
    | ok st1 =>
      rw [hstep] at h
      obtain ⟨hinv1, hlen1⟩ := snapInv_sub ctx P st st1 sub r0 hdry hupd hP hinv hstep
      obtain ⟨hinv2, hlen2⟩ := ih st1 st2 hinv1 h
      refine ⟨hinv2, ?_⟩
      simp only [List.length_cons]
      omega

/-- The snapshot invariant survives one real non-update step of the
top-level loop. -/
theorem snapInv_top (ctx : Ctx) (st st2 : RunState) (n : IssueNode) (r0 : Remote)
    (hdry : ctx.dryRun = false) (hupd : ctx.update = false)
    (hinv : SnapInv ctx.teamId r0 st)
    (h : processTopIssue ctx st n = .ok st2) :
    SnapInv ctx.teamId r0 st2 ∧
    st2.created.length ≤ st.created.length + countVisitedNode n := by
  unfold processTopIssue at h
  rw [hdry, hupd] at h
  rcases hrl : resolveLabelIds (n.labels.getD []) ctx.teamId st.cache st.remote
      st.calls false with ⟨ids, c1, r1, t1⟩
  rw [hrl] at h
  obtain ⟨Δ, hc, ht, hids, hlab, hiss, htm, hpr, hst, hnx, hfound, _⟩ :=
    resolveLabelIds_real _ _ _ _ _ _ _ _ _ hrl
  obtain ⟨hsnap, hcache, htm0, hpr0, hst0, hlen0, hne0⟩ := hinv
  have hcache1 : c1 = getTeamLabels ctx.teamId r1 := by
    rw [hc, hcache, getTeamLabels_append ctx.teamId st.remote r1 Δ hlab]
  cases hsid : nodeStateId n ctx.workflowStates ctx.defaultStateId with
  | error e => rw [hsid] at h; exact absurd h (by simp)
  | ok sid =>
    rw [hsid] at h
    cases hfind : findExistingIssue st.snapshot n none with
    | some ex =>
      rw [hfind] at h
      simp only [Bool.false_eq_true, if_false] at h
      have hinvB : SnapInv ctx.teamId r0
          { st with cache := c1, remote := r1, calls := t1,
                    skipped := st.skipped ++ [ex] } :=
        ⟨by rw [hiss]; exact hsnap, hcache1, htm.trans htm0, hpr.trans hpr0,
          hst.trans hst0, by rw [hiss]; exact hlen0, by rw [hiss]; exact hne0⟩
      have hexne : (ex.id == "") = false := by
        have hmem : ex ∈ st.snapshot := by
          have hx := hfind
          unfold findExistingIssue at hx
          by_cases hi : strTruthy n.identifier = true
          · rw [hi, if_pos rfl] at hx
            exact List.mem_of_find?_eq_some hx
          · rw [Bool.not_eq_true] at hi
            rw [hi] at hx
            simp only [Bool.false_eq_true, if_false] at hx
            exact List.mem_of_find?_eq_some hx
        have hq := snapInv_snapshot_ids ctx.teamId r0 st
          ⟨hsnap, hcache, htm0, hpr0, hst0, hlen0, hne0⟩ ex hmem
        simpa using hq
      obtain ⟨hinv2, hlen2⟩ := snapInv_subs ctx ex r0 hdry hupd hexne
        (n.subIssues.getD []) _ st2 hinvB h
      refine ⟨hinv2, ?_⟩
      unfold countVisitedNode
      dsimp only at hlen2
      omega
    | none =>
      rw [hfind] at h
      simp only [Bool.false_eq_true, if_false] at h
      have hparent : (buildIssueInput n ctx.teamId ctx.projectId ids sid
          none).parentId = none := by
        simp [buildIssueInput, strTruthy]
      obtain ⟨hciid, hcititle, hciparent, hciiss, hcitm, hcipr, hcist, hcilab⟩ :=
        createIssue_spec (buildIssueInput n ctx.teamId ctx.projectId ids sid none) r1
      have hinvB : SnapInv ctx.teamId r0
          { st with cache := c1,
                    remote := (createIssue (buildIssueInput n ctx.teamId ctx.projectId
                      ids sid none) r1).2,
                    calls := t1 ++ [ApiCall.createIssueCall (buildIssueInput n ctx.teamId
                      ctx.projectId ids sid none)],
                    created := st.created ++ [(createIssue (buildIssueInput n ctx.teamId
                      ctx.projectId ids sid none) r1).1],
                    snapshot := st.snapshot ++ [(createIssue (buildIssueInput n ctx.teamId
                      ctx.projectId ids sid none) r1).1] } := by
        refine ⟨?_, ?_, ?_, ?_, ?_, ?_, ?_⟩
        · show st.snapshot ++ _ = _
          rw [hciiss, List.filter_append, List.map_append, hiss, ← hsnap]
          congr 1
          simp [RemoteIssue.toSnap, hparent, buildIssueInput, createIssue, strTruthy]
        · show c1 = _
          rw [hcache1]
          unfold getTeamLabels
          rw [hcilab]
        · show _ = r0.teams
          rw [hcitm, htm, htm0]
        · show _ = r0.projects
          rw [hcipr, hpr, hpr0]
        · show _ = r0.states
          rw [hcist, hst, hst0]
        · show _ = r0.issues.length + _
          rw [hciiss, List.length_append, hiss, List.length_append, hlen0]
          simp only [List.length_append, List.length_cons, List.length_nil]
          omega
        · dsimp only
          rw [hciiss]
          intro i hi
          rcases List.mem_append.mp hi with hi | hi
          · rw [hiss] at hi
            exact hne0 i hi
          · rw [List.mem_singleton] at hi
            subst hi
            simp only [hciid]
            exact uuid_ne_empty _
      obtain ⟨hinv2, hlen2⟩ := snapInv_subs ctx _ r0 hdry hupd
        (by simpa using uuid_ne_empty (toString r1.nextIssueId))
        (n.subIssues.getD []) _ st2 hinvB h
      refine ⟨hinv2, ?_⟩
      unfold countVisitedNode
      dsimp only at hlen2
      simp only [List.length_append, List.length_cons, List.length_nil] at hlen2
      omega

/-- The snapshot invariant survives the whole top-level loop. -/
theorem snapInv_issues (ctx : Ctx) (r0 : Remote)
    (hdry : ctx.dryRun = false) (hupd : ctx.update = false) :
    ∀ (ns : List IssueNode) (st st2 : RunState),
      SnapInv ctx.teamId r0 st →
      processIssues ctx st ns = .ok st2 →
      SnapInv ctx.teamId r0 st2 ∧
      st2.created.length ≤ st.created.length + countVisited ns := by
  intro ns
  induction ns with
  | nil =>
    intro st st2 hinv h
    rw [processIssues] at h
    simp only [Except.ok.injEq] at h
    subst h
    exact ⟨hinv, by simp [countVisited]⟩
  | cons n rest ih =>
    intro st st2 hinv h
    rw [processIssues] at h
    cases hstep : processTopIssue ctx st n with
    | error e => rw [hstep] at h; exact absurd h (by simp)
    | ok st1 =>
      rw [hstep] at h
      obtain ⟨hinv1, hlen1⟩ := snapInv_top ctx st st1 n r0 hdry hupd hinv hstep
      obtain ⟨hinv2, hlen2⟩ := ih st1 st2 hinv1 h
      refine ⟨hinv2, ?_⟩
      unfold countVisited at *
      simp only [List.map_cons, List.sum_cons]
      omega

/-- Claim C2 (amended): a real non-update import is idempotent provided the
remote ids are well formed, the workspace stays within the 250-issue
snapshot window, and every node that carries a truthy identifier matches
some snapshot issue.  Under these conditions a second run against the
resulting remote state creates nothing, updates nothing, issues no remote
call at all, and resolves every visited node to Skip.  Scenario A is
included concretely: the first run creates Epic and Sub (with Epic as
parent), the second run performs two skips and no creates. -/
theorem c2_idempotence :
    (∀ (data : ImportData) (r : Remote) (res : RunState) (team : Team),
      importCommand data { dryRun := false, update := false } r = .ok res →
      getTeamByName data.team r = some team →
      (∀ i ∈ r.issues, ¬ i.id = "") →
      r.issues.length + countVisited data.issues ≤ 250 →
      (∀ m ∈ visitedNodes data.issues, strTruthy m.identifier = true →
        ∃ i ∈ getTeamIssues team.id r,
          strLower i.identifier = strLower (m.identifier.getD "")) →
      ∃ res2,
        importCommand data { dryRun := false, update := false } res.remote = .ok res2 ∧
        res2.created = [] ∧ res2.updated = [] ∧ res2.calls = [] ∧
        res2.skipped.length = countVisited data.issues) ∧
    ((importCommand docA ffOpts baseRemote).toOption.bind fun res =>
      (importCommand docA ffOpts res.remote).toOption.map fun r2 =>
        (res.created.length,
         (res.calls.filter (fun c => match c with
           | ApiCall.createIssueCall i => i.parentId == some "uuid-1" && i.title == "Sub"
           | _ => false)).length,
         r2.created.length, r2.skipped.length, countCreateIssueCalls r2.calls)) =
      some (2, 1, 0, 2, 0) := by
  refine ⟨?_, by decide⟩
  intro data r res team hrun hteam hne hcap hid
  have hrcap : r.issues.length ≤ 250 := by omega
  unfold importCommand at hrun
  cases hv : validateImportData data with
  | error e => rw [hv] at hrun; exact absurd hrun (by simp)
  | ok u =>
    rw [hv, hteam] at hrun
    dsimp only at hrun
    cases hd : (if strTruthy data.defaultStatus = true then
        resolveStatusId data.defaultStatus (getWorkflowStates team.id r)
      else .ok none) with
    | error e => rw [hd] at hrun; exact absurd hrun (by simp)
    | ok dsid =>
      rw [hd] at hrun
      have hsnap0 : getTeamIssues team.id r =
          (r.issues.filter (fun i => i.teamId == team.id)).map RemoteIssue.toSnap := by
        unfold getTeamIssues
        rw [List.take_of_length_le hrcap]
      have hinv0 : SnapInv team.id r
          { remote := r, snapshot := getTeamIssues team.id r,
            cache := getTeamLabels team.id r } :=
        ⟨hsnap0, rfl, rfl, rfl, rfl, by simp, hne⟩
      obtain ⟨hinvf, hcreated⟩ := snapInv_issues
        { teamId := team.id,
          projectId := (if strTruthy data.project = true then
              getProjectByName (data.project.getD "") r
            else none).map Project.id,
          workflowStates := getWorkflowStates team.id r,
          defaultStateId := dsid, dryRun := false, update := false }
        r rfl rfl data.issues _ res hinv0 hrun
      obtain ⟨hsnapf, hcachef, htmf, hprf, hstf, hlenf, hnef⟩ := hinvf
      have hcreated2 : res.created.length ≤ countVisited data.issues := by
        simpa using hcreated
      have hcapf : res.remote.issues.length ≤ 250 := by
        rw [hlenf]
        omega
      have hsnap2 : getTeamIssues team.id res.remote = res.snapshot := by
        unfold getTeamIssues
        rw [List.take_of_length_le hcapf, ← hsnapf]
      have hne0 : ∀ i ∈ getTeamIssues team.id r, ¬ i.id = "" :=
        snapInv_snapshot_ids team.id r _ hinv0
      obtain ⟨Δm, hreplay, hlen⟩ := replay_issues
        { teamId := team.id,
          projectId := (if strTruthy data.project = true then
              getProjectByName (data.project.getD "") r
            else none).map Project.id,
          workflowStates := getWorkflowStates team.id r,
          defaultStateId := dsid, dryRun := false, update := false }
        rfl rfl data.issues _ res hrun hid hne0
        { remote := res.remote, snapshot := res.snapshot, cache := res.cache }
        (extends_refl _) (extends_refl _)
      refine ⟨{ remote := res.remote, snapshot := res.snapshot, cache := res.cache,
                created := [], updated := [], skipped := [] ++ Δm, calls := [] },
        ?_, rfl, rfl, rfl, by simpa using hlen⟩
      unfold importCommand
      rw [hv]
      rw [getTeamByName_congr data.team r res.remote htmf, hteam]
      dsimp only
      rw [getWorkflowStates_congr team.id r res.remote hstf]
      rw [hd]
      rw [getProjectByName_congr (data.project.getD "") r res.remote hprf]
      rw [hsnap2]
      rw [← hcachef]
      exact hreplay

/-- Counterexample to C2 as stated: a valid document whose only node
carries an identifier matching nothing is re-created by the second run —
the second run issues one `createIssue` call and skips nothing. -/
theorem c2_counterexample :
    ((importCommand docId ffOpts baseRemote).toOption.bind fun res =>
      (importCommand docId ffOpts res.remote).toOption.map fun r2 =>
        (r2.created.length, countCreateIssueCalls r2.calls, r2.skipped.length)) =
      some (1, 1, 0) := by
  decide

/-- Witness for the amended C2 at scenario A. -/
theorem c2_idempotence_witness :
    ∃ res res2, importCommand docA ffOpts baseRemote = .ok res ∧
      importCommand docA ffOpts res.remote = .ok res2 ∧
      res2.created = [] ∧ res2.calls = [] ∧
      res2.skipped.length = countVisited docA.issues := by
  obtain ⟨res, hrun⟩ : ∃ res, importCommand docA ffOpts baseRemote = .ok res := by
    cases h : importCommand docA ffOpts baseRemote with
    | ok s => exact ⟨s, rfl⟩
    | error e =>
      have hnone : (importCommand docA ffOpts baseRemote).toOption = none := by
        rw [h]; rfl
      have hsome : ¬ (importCommand docA ffOpts baseRemote).toOption = none := by decide
      exact absurd hnone hsome
  obtain ⟨res2, h2, hc, hu, ht, hs⟩ := c2_idempotence.1 docA baseRemote res baseTeam
    hrun (by decide) (by decide) (by decide) (by decide)
  exact ⟨res, res2, hrun, h2, hc, ht, hs⟩

end LinearCli
